import Mathlib

/-!
Verification development for the `cppn_neat` repository (files
`cppn.py`, `graph_util.py`, `evolutionary_algorithm.py`).

The genome data model, the topological layering algorithm, the mutation
operators, crossover, genetic distance and the two image-evaluation paths
are embedded shallowly: Python dicts become association lists (insertion
order preserved, keys unique by the dict invariant, stated as hypotheses
where needed), torch scalars become rationals, and randomness becomes
explicit oracle parameters.  Fallible code (missing dict keys, reads of
uninitialized node outputs) is modelled with `Option`.
-/

set_option maxRecDepth 4000

namespace CppnNeat

/-- Modelled from the spec: the activation registry (`activation_functions.py`
is not part of the provided sources).  The spec describes "a fixed catalog of
named scalar-to-scalar math functions"; the example scenario uses the
`identity` input activation and a `linear` output activation (both acting as
the identity map on scalars).  We model the catalog as a closed enumeration
with a name map (distances compare activations by `__name__`) and a scalar
semantics over `ℚ`. -/
inductive ActFn where
  | identity
  | linear
  | gauss
  deriving DecidableEq, Repr

/-- Modelled from the spec: the `__name__` of an activation function. -/
def ActFn.name : ActFn → String
  | .identity => "identity"
  | .linear => "linear"
  | .gauss => "gauss"

/-- Modelled from the spec: scalar semantics of an activation.  `identity`
and `linear` are the identity map (the spec's example computes
`w0*0 + w1*0 = 0` through a linear output activation); `gauss` stands for an
arbitrary further catalog entry. -/
def ActFn.eval : ActFn → ℚ → ℚ
  | .identity => fun x => x
  | .linear => fun x => x
  | .gauss => fun x => x * x

/-- `NodeType` from `cppn.py` (`INPUT = 0`, `OUTPUT = 1`, `HIDDEN = 2`). -/
inductive NodeType where
  | input
  | output
  | hidden
  deriving DecidableEq, Repr

/-- `Node` from `cppn.py`: id, activation, type and layer (999 is the
constructor's sentinel layer).  The transient evaluation state
(`sum_inputs`, `outputs`) is modelled separately as evaluation-state
functions, not as fields. -/
structure Node where
  id : Int
  activation : ActFn
  type : NodeType
  layer : Nat
  deriving DecidableEq, Repr

/-- `Connection` from `cppn.py`: key `(from_id, to_id)`, weight, enabled
flag, and the `is_recurrent` flag (always `False` in this code, kept as a
field because `add_node` filters on it). -/
structure Connection where
  key : Int × Int
  weight : ℚ
  enabled : Bool
  isRecurrent : Bool := false
  deriving DecidableEq, Repr

/-- The genome-owned state of a `CPPN`: the node genome and connection
genome (dicts in insertion order) and the externally assigned scores.
The cached image, device, id and lineage fields play no role in the claims
and are omitted. -/
structure Genome where
  nodes : List Node
  connections : List Connection
  fitness : ℚ := 0
  adjustedFitness : ℚ := 0
  novelty : ℚ := 0
  deriving DecidableEq, Repr

/-- The configuration fields read by the embedded operations. -/
structure Config where
  resH : Nat
  resW : Nat
  useRadialDistance : Bool
  useInputBias : Bool
  numOutputs : Nat
  hiddenNodesAtStart : Nat
  outputActivation : Option ActFn
  initConnectionProbability : ℚ
  allowRecurrent : Bool
  normalizeOutputs : Bool
  maxWeight : ℚ
  weightMutationMax : ℚ
  probWeightReinit : ℚ
  probReenableConnection : ℚ
  weightThreshold : ℚ
  probAddNode : ℚ
  probRemoveNode : ℚ
  probAddConnection : ℚ
  probDisableConnection : ℚ
  probMutateWeight : ℚ
  probMutateActivation : ℚ
  allowInputActivationMutation : Bool
  deriving DecidableEq, Repr

/-- `CPPN.__init__`: `n_inputs = 2`, plus one for the radial-distance
feature and one for the bias feature. -/
def Config.nInputs (cfg : Config) : Nat :=
  2 + (if cfg.useRadialDistance then 1 else 0) + (if cfg.useInputBias then 1 else 0)

/-- `CPPN.input_nodes()`: the input-typed nodes in genome order. -/
def Genome.inputNodes (g : Genome) : List Node :=
  g.nodes.filter (fun n => n.type = NodeType.input)

/-- `CPPN.output_nodes()`: the output-typed nodes in genome order. -/
def Genome.outputNodes (g : Genome) : List Node :=
  g.nodes.filter (fun n => n.type = NodeType.output)

/-- `CPPN.hidden_nodes()`: the hidden-typed nodes in genome order. -/
def Genome.hiddenNodes (g : Genome) : List Node :=
  g.nodes.filter (fun n => n.type = NodeType.hidden)

/-- The ids of the input nodes (`get_ids_from_individual`'s `inputs`). -/
def Genome.inputIds (g : Genome) : List Int :=
  g.inputNodes.map (fun n => n.id)

/-- The ids of the output nodes (`get_ids_from_individual`'s `outputs`). -/
def Genome.outputIds (g : Genome) : List Int :=
  g.outputNodes.map (fun n => n.id)

/-- All node ids of the genome (the keys of `node_genome`). -/
def Genome.nodeIds (g : Genome) : List Int :=
  g.nodes.map (fun n => n.id)

/-- The connection keys (`get_ids_from_individual`'s `connections`,
taken over the whole `connection_genome`, disabled ones included). -/
def Genome.cxKeys (g : Genome) : List (Int × Int) :=
  g.connections.map (fun c => c.key)

/-- `find_node_with_id` / `nodes[node_id]`: dict lookup by id, `none`
models the `KeyError`. -/
def Genome.findNode (g : Genome) (id : Int) : Option Node :=
  g.nodes.find? (fun n => n.id = id)

/-- `CPPN.enabled_connections()`. -/
def Genome.enabledConnections (g : Genome) : List Connection :=
  g.connections.filter (fun c => c.enabled)

/-- `get_incoming_connections`: enabled connections whose key ends at the
given node id. -/
def Genome.incoming (g : Genome) (id : Int) : List Connection :=
  g.connections.filter (fun c => c.enabled ∧ c.key.2 = id)

/-- `is_valid_connection` from `graph_util.py`: rejects same-layer
endpoints, and `layer(from) > layer(to)` when recurrence is disallowed.
`none` models the `KeyError` on a missing endpoint. -/
def isValidConnection (g : Genome) (key : Int × Int) (cfg : Config) : Bool :=
  match g.findNode key.1, g.findNode key.2 with
  | some fromNode, some toNode =>
      if fromNode.layer = toNode.layer then false
      else if ¬cfg.allowRecurrent ∧ fromNode.layer > toNode.layer then false
      else true
  | _, _ => false

/-- One iteration step set of `required_for_output`: the sources of
connections whose target is already in `s`, excluding members of `s`. -/
def requiredStep (cxs : List (Int × Int)) (s : List Int) : List Int :=
  ((cxs.filter (fun p => p.2 ∈ s ∧ p.1 ∉ s)).map (fun p => p.1)).dedup

/-- The fixpoint loop of `required_for_output` (`graph_util.py`), with
fuel; each productive iteration adds at least one new element of the
finite set of connection sources, so `cxs.length + 1` fuel reaches the
fixpoint. -/
def requiredAux (inputs : List Int) (cxs : List (Int × Int)) :
    Nat → List Int → List Int → List Int
  | 0, required, _ => required
  | fuel + 1, required, s =>
      let t := requiredStep cxs s
      if t = [] then required
      else
        let layerNodes := t.filter (fun x => x ∉ inputs)
        if layerNodes = [] then required
        else requiredAux inputs cxs fuel (required ++ layerNodes) (s ++ t)

/-- `required_for_output(inputs, outputs, connections)` from
`graph_util.py`. -/
def requiredForOutput (inputs outputs : List Int) (cxs : List (Int × Int)) :
    List Int :=
  requiredAux inputs cxs (cxs.length + 1) outputs.dedup outputs.dedup

/-- `get_candidate_nodes(s, connections)`: targets of connections whose
source is in `s` and which are not themselves in `s`. -/
def candidateNodes (s : List Int) (cxs : List (Int × Int)) : List Int :=
  ((cxs.filter (fun p => p.1 ∈ s ∧ p.2 ∉ s)).map (fun p => p.2)).dedup

/-- The while loop of `feed_forward_layers`: keep the candidates that are
required and whose every incoming connection source is already in `s`;
stop when none qualifies. -/
def fflAux (required : List Int) (cxs : List (Int × Int)) :
    Nat → List Int → List (List Int)
  | 0, _ => []
  | fuel + 1, s =>
      let t := (candidateNodes s cxs).filter
        (fun n => n ∈ required ∧ ∀ p ∈ cxs, p.2 = n → p.1 ∈ s)
      if t = [] then []
      else t :: fflAux required cxs fuel (s ++ t)

/-- `feed_forward_layers(individual)` from `graph_util.py`: layers of the
output-relevant subgraph, input layer excluded.  Each productive
iteration consumes at least one of the finitely many connection targets,
so `cxs.length + 1` fuel reaches the fixpoint. -/
def feedForwardLayers (g : Genome) : List (List Int) :=
  fflAux (requiredForOutput g.inputIds g.outputIds g.cxKeys) g.cxKeys
    (g.cxKeys.length + 1) g.inputIds

/-- The layer field a node receives in `CPPN.update_node_layers`: the code
first sets every input node to layer 0 and then overwrites every node
appearing in layer `k` (0-based) with `k + 1`; nodes appearing in no layer
and not of input type keep their old field. -/
def assignLayer (layers : List (List Int)) (n : Node) : Node :=
  match layers.findIdx? (fun l => n.id ∈ l) with
  | some k => { n with layer := k + 1 }
  | none => if n.type = NodeType.input then { n with layer := 0 } else n

/-- `CPPN.update_node_layers`. -/
def updateNodeLayers (g : Genome) : Genome :=
  { g with nodes := g.nodes.map (assignLayer (feedForwardLayers g)) }

/-- `CPPN.disable_invalid_connections`: the body begins with
`return  # TODO?`, so the loop below it is dead code and the method is a
no-op. -/
def disableInvalidConnections (g : Genome) : Genome := g

/-- The attempt loop of `CPPN.add_connection`.  Each list element is one
sampled ordered pair of distinct genome-node ids (the code makes exactly
20 attempts; the list models that sample sequence).  An existing pair
stops the loop, re-enabling it when it was disabled and the single random
draw falls below `prob_reenable_connection`; a fresh valid pair is
appended with the new random weight and layers are updated; a fresh
invalid pair moves on to the next attempt. -/
def addConnectionAux (cfg : Config) (newWeight reenable : ℚ) :
    Genome → List (Int × Int) → Genome
  | g, [] => g
  | g, key :: rest =>
      match g.connections.find? (fun c => c.key = key) with
      | some _ =>
          { g with connections := g.connections.map (fun c =>
              if c.key = key ∧ c.enabled = false ∧
                  reenable < cfg.probReenableConnection
              then { c with enabled := true } else c) }
      | none =>
          if isValidConnection g key cfg then
            updateNodeLayers { g with connections := g.connections ++
              [{ key := key, weight := newWeight, enabled := true }] }
          else addConnectionAux cfg newWeight reenable g rest

/-- `CPPN.add_connection`. -/
def addConnection (cfg : Config) (attempts : List (Int × Int))
    (newWeight reenable : ℚ) (g : Genome) : Genome :=
  addConnectionAux cfg newWeight reenable g attempts

/-- `CPPN.add_node`: split a uniformly chosen non-recurrent connection
(`choice` is the random index), disable it, insert a hidden node with a
random activation and the fresh id from the global counter, add the
1-weight and copied-weight connections, and update layers. -/
def addNode (cfg : Config) (choice : Nat) (act : ActFn) (newId : Int)
    (g : Genome) : Genome :=
  let eligible := g.connections.filter (fun c => ¬c.isRecurrent)
  match eligible.get? (choice % eligible.length) with
  | none => g
  | some old =>
      updateNodeLayers { g with
        nodes := g.nodes ++
          [{ id := newId, activation := act, type := NodeType.hidden, layer := 999 }],
        connections :=
          (g.connections.map (fun c =>
            if c.key = old.key then { c with enabled := false } else c)) ++
          [{ key := (old.key.1, newId), weight := 1, enabled := true },
           { key := (newId, old.key.2), weight := old.weight, enabled := true }] }

/-- The node-deletion loop of `CPPN.remove_node`: reversed iteration with
a `break`, i.e. the last entry whose node id matches is deleted. -/
def removeLastWithId : List Node → Int → List Node
  | [], _ => []
  | n :: rest, rid =>
      if rest.filter (fun m => m.id = rid) = [] ∧ n.id = rid then rest
      else n :: removeLastWithId rest rid

/-- `CPPN.remove_node`: pick a hidden node uniformly (`choice` is the
random index; no-op when there is none), delete every connection whose
key contains its id, delete the node, update layers, and call
`disable_invalid_connections` (a no-op, see above). -/
def removeNode (choice : Nat) (g : Genome) : Genome :=
  let hidden := g.hiddenNodes
  match hidden.get? (choice % hidden.length) with
  | none => g
  | some n =>
      disableInvalidConnections (updateNodeLayers { g with
        connections := g.connections.filter
          (fun c => ¬(n.id = c.key.1 ∨ n.id = c.key.2)),
        nodes := removeLastWithId g.nodes n.id })

/-- `CPPN.disable_connection`: disable a uniformly chosen enabled
connection (no-op when none is enabled). -/
def disableConnection (choice : Nat) (g : Genome) : Genome :=
  let eligible := g.enabledConnections
  match eligible.get? (choice % eligible.length) with
  | none => g
  | some cx =>
      { g with connections := g.connections.map (fun c =>
          if c.key = cx.key then { c with enabled := false } else c) }

/-- `CPPN.clamp_weights`: snap weights inside `(-threshold, threshold)`
to 0, then clamp to `[-max_weight, max_weight]`. -/
def clampWeights (cfg : Config) (g : Genome) : Genome :=
  { g with connections := g.connections.map (fun c =>
      let w := if c.weight < cfg.weightThreshold ∧ -cfg.weightThreshold < c.weight
               then 0 else c.weight
      { c with weight := max (-cfg.maxWeight) (min cfg.maxWeight w) }) }

/-- `CPPN.mutate_weights`: with probability `prob` perturb by a uniform
delta, otherwise with probability `prob_weight_reinit` replace by a fresh
random weight; then clamp.  The oracles are keyed by connection key. -/
def mutateWeights (cfg : Config) (prob : ℚ)
    (r1 r2 delta reinit : (Int × Int) → ℚ) (g : Genome) : Genome :=
  clampWeights cfg { g with connections := g.connections.map (fun c =>
    if r1 c.key < prob then { c with weight := c.weight + delta c.key }
    else if r2 c.key < cfg.probWeightReinit then { c with weight := reinit c.key }
    else c) }

/-- Membership in the `eligible_nodes` list of `CPPN.mutate_activations`:
hidden nodes always, output nodes when no output activation is forced,
input nodes when input-activation mutation is allowed. -/
def eligibleForActMutation (cfg : Config) (n : Node) : Bool :=
  match n.type with
  | NodeType.hidden => true
  | NodeType.output => cfg.outputActivation = none
  | NodeType.input => cfg.allowInputActivationMutation

/-- `CPPN.mutate_activations` with id-keyed oracles. -/
def mutateActivations (cfg : Config) (prob : ℚ) (r : Int → ℚ)
    (pick : Int → ActFn) (g : Genome) : Genome :=
  { g with nodes := g.nodes.map (fun n =>
      if eligibleForActMutation cfg n ∧ r n.id < prob
      then { n with activation := pick n.id } else n) }

/-- The random draws consumed by one `CPPN.mutate` call. -/
structure MutationOracle where
  gateAddNode : ℚ
  gateRemoveNode : ℚ
  gateAddConnection : ℚ
  gateDisableConnection : ℚ
  addNodeChoice : Nat
  addNodeAct : ActFn
  addNodeNewId : Int
  removeChoice : Nat
  attempts : List (Int × Int)
  newWeight : ℚ
  reenable : ℚ
  disableChoice : Nat
  actR : Int → ℚ
  actPick : Int → ActFn
  wR1 : (Int × Int) → ℚ
  wR2 : (Int × Int) → ℚ
  wDelta : (Int × Int) → ℚ
  wReinit : (Int × Int) → ℚ

/-- `CPPN.mutate` (rates from the config): first zero out `fitness`,
`adjusted_fitness` and `novelty`, then the four gated structural
operators in code order, then activation and weight mutation, then a
layer update. -/
def mutate (cfg : Config) (o : MutationOracle) (g : Genome) : Genome :=
  let g0 := { g with fitness := 0, adjustedFitness := 0, novelty := 0 }
  let g1 := if o.gateAddNode < cfg.probAddNode then
    addNode cfg o.addNodeChoice o.addNodeAct o.addNodeNewId g0 else g0
  let g2 := if o.gateRemoveNode < cfg.probRemoveNode then
    removeNode o.removeChoice g1 else g1
  let g3 := if o.gateAddConnection < cfg.probAddConnection then
    addConnection cfg o.attempts o.newWeight o.reenable g2 else g2
  let g4 := if o.gateDisableConnection < cfg.probDisableConnection then
    disableConnection o.disableChoice g3 else g3
  let g5 := mutateActivations cfg cfg.probMutateActivation o.actR o.actPick g4
  let g6 := mutateWeights cfg cfg.probMutateWeight o.wR1 o.wR2 o.wDelta o.wReinit g5
  updateNodeLayers g6

/-- `Gene.copy` for connections: a fresh `Connection(key)` (default
`is_recurrent = False`) with the gene attributes `weight` and `enabled`
copied. -/
def Connection.copyGene (c : Connection) : Connection :=
  { key := c.key, weight := c.weight, enabled := c.enabled }

/-- `Gene.copy` for nodes: a fresh `Node(key)` (default layer 999) with
the gene attributes `activation` and `type` copied. -/
def Node.copyGene (n : Node) : Node :=
  { id := n.id, activation := n.activation, type := n.type, layer := 999 }

/-- `Gene.crossover` for connections: each gene attribute comes from
`c1` when its coin is true, otherwise from `c2`. -/
def Connection.crossoverGene (c1 c2 : Connection) (rw re : Bool) : Connection :=
  { key := c1.key,
    weight := if rw then c1.weight else c2.weight,
    enabled := if re then c1.enabled else c2.enabled }

/-- `Gene.crossover` for nodes. -/
def Node.crossoverGene (n1 n2 : Node) (ra rt : Bool) : Node :=
  { id := n1.id,
    activation := if ra then n1.activation else n2.activation,
    type := if rt then n1.type else n2.type,
    layer := 999 }

/-- The fitter-parent selection of `CPPN.crossover` (`tie` is the coin
flip used when the fitnesses are equal). -/
def fitterPair (a b : Genome) (tie : Bool) : Genome × Genome :=
  if a.fitness > b.fitness then (a, b)
  else if a.fitness < b.fitness then (b, a)
  else if tie then (a, b) else (b, a)

/-- `CPPN.crossover`: the child inherits exactly the fitter parent's
connection keys and node keys; homologous genes are combined attribute
by attribute with independent coins (`rc`, `rn` keyed by gene key), and
layers are recomputed at the end.  The child's scores start at the
constructor defaults (zero). -/
def crossover (a b : Genome) (tie : Bool)
    (rc : (Int × Int) → Bool × Bool) (rn : Int → Bool × Bool) : Genome :=
  let p := fitterPair a b tie
  let childCxs := p.1.connections.map (fun c1 =>
    match p.2.connections.find? (fun c => c.key = c1.key) with
    | none => c1.copyGene
    | some c2 => c1.crossoverGene c2 (rc c1.key).1 (rc c1.key).2)
  let childNodes := p.1.nodes.map (fun n1 =>
    match p.2.nodes.find? (fun n => n.id = n1.id) with
    | none => n1.copyGene
    | some n2 => n1.crossoverGene n2 (rn n1.id).1 (rn n1.id).2)
  updateNodeLayers { nodes := childNodes, connections := childCxs }

/-- Python's `<` on `(from_id, to_id)` tuples: lexicographic. -/
def keyLt (a b : Int × Int) : Bool :=
  a.1 < b.1 ∨ (a.1 = b.1 ∧ a.2 < b.2)

/-- Python's `<=` on key tuples. -/
def keyLe (a b : Int × Int) : Bool :=
  keyLt a b ∨ a = b

/-- Insertion step of the key sort used below. -/
def insertCx (c : Connection) : List Connection → List Connection
  | [] => [c]
  | d :: rest => if keyLe c.key d.key then c :: d :: rest else d :: insertCx c rest

/-- `sorted(cxs, key=lambda c: c.key)`: a deterministic stable sort by
key (insertion sort). -/
def sortCxsByKey : List Connection → List Connection
  | [] => []
  | c :: rest => insertCx c (sortCxsByKey rest)

/-- `get_disjoint_connections` from `graph_util.py`: connections of
`thisCxs` whose key is absent from `otherInn` and smaller than its last
(maximal) key; empty when either list is empty. -/
def getDisjointConnections (thisCxs : List Connection)
    (otherInn : List (Int × Int)) : List Connection :=
  if thisCxs = [] ∨ otherInn = [] then []
  else thisCxs.filter (fun c =>
    c.key ∉ otherInn ∧ keyLt c.key (otherInn.getLast?.getD (0, 0)))

/-- `get_excess_connections` from `graph_util.py`: absent keys greater
than the other side's last key. -/
def getExcessConnections (thisCxs : List Connection)
    (otherInn : List (Int × Int)) : List Connection :=
  if thisCxs = [] ∨ otherInn = [] then []
  else thisCxs.filter (fun c =>
    c.key ∉ otherInn ∧ keyLt (otherInn.getLast?.getD (0, 0)) c.key)

/-- `get_matching_connections` from `graph_util.py`. -/
def getMatchingConnections (cxs1 cxs2 : List Connection) :
    List Connection × List Connection :=
  (sortCxsByKey (cxs1.filter (fun c1 => c1.key ∈ cxs2.map (fun c2 => c2.key))),
   sortCxsByKey (cxs2.filter (fun c2 => c2.key ∈ cxs1.map (fun c1 => c1.key))))

/-- `CPPN.genetic_difference`: excess and disjoint counts over enabled
connections (normalized by `N = max(|A|, |B|)` when positive), the mean
absolute weight difference over matching connections (0.4-weighted), and
the count of positionally zipped nodes whose activation names differ. -/
def geneticDifference (g other : Genome) : ℚ :=
  let thisCxs := sortCxsByKey g.enabledConnections
  let otherCxs := sortCxsByKey other.enabledConnections
  let bigN : ℚ := (max thisCxs.length otherCxs.length : Nat)
  let otherInn := otherCxs.map (fun c => c.key)
  let nExcess : ℚ := (getExcessConnections thisCxs otherInn).length
  let nDisjoint : ℚ := (getDisjointConnections thisCxs otherInn).length
  let m := getMatchingConnections thisCxs otherCxs
  let diffs := (m.2.zip m.1).map (fun p => |p.1.weight - p.2.weight|)
  let meanDiff : ℚ := if diffs.length = 0 then 0 else diffs.sum / diffs.length
  let nDifferentFns : ℚ := ((g.nodes.zip other.nodes).filter
      (fun p => p.1.activation.name ≠ p.2.activation.name)).length
  (if (0:ℚ) < bigN then nExcess / bigN else nExcess) +
    (if (0:ℚ) < bigN then nDisjoint / bigN else nDisjoint) +
    (2/5) * meanDiff + nDifferentFns

/-! ### Evaluation engine

Scalar values are rationals.  `torch.sqrt` / `math.sqrt` (used only for
the optional radial-distance input feature) is passed in as an arbitrary
function parameter `sq : ℚ → ℚ`; nothing proved below depends on its
values, only on it being applied to equal arguments. -/

/-- `torch.linspace(-.5, .5, n)` as a function of the index. -/
def linspaceQ (n : Nat) (i : Nat) : ℚ :=
  if n ≤ 1 then -(1/2) else -(1/2) + (i : ℚ) / ((n : ℚ) - 1)

/-- The per-coordinate input feature vector: `[x, y]`, optionally
followed by the radial distance and the constant bias 1.  `set_inputs`
builds it as `[x, y, sqrt(x²+y²), 1]`; `initialize_inputs` builds the
pixel vector as `[y_r, x_c, sqrt(y_r²+x_c²), 1]`, which is this vector
at `(y_r, x_c)`. -/
def inputVec (cfg : Config) (sq : ℚ → ℚ) (x y : ℚ) : List ℚ :=
  [x, y] ++ (if cfg.useRadialDistance then [sq (x * x + y * y)] else []) ++
    (if cfg.useInputBias then [(1 : ℚ)] else [])

/-- The value `zip(inputs, input_nodes)` assigns to the input node with
the given id: the feature at the node's position among the input nodes
(`none` when the position is beyond the feature vector, i.e. the zip
leaves it untouched). -/
def rawInputAt (g : Genome) (cfg : Config) (sq : ℚ → ℚ) (x y : ℚ)
    (id : Int) : Option ℚ := do
  let k ← g.inputNodes.findIdx? (fun n => n.id = id)
  (inputVec cfg sq x y).get? k

/-- Pointwise update of an evaluation state. -/
def updateState {α : Type} (σ : Int → α) (id : Int) (v : α) : Int → α :=
  fun j => if j = id then v else σ j

/-- `CPPN.set_inputs`: write `activation(input)` into the outputs of the
zipped input nodes; everything else keeps its previous value. -/
def serialSetInputs (g : Genome) (cfg : Config) (sq : ℚ → ℚ) (x y : ℚ)
    (σ : Int → Option ℚ) : Int → Option ℚ :=
  fun id =>
    match g.findNode id with
    | some n =>
        if n.type = NodeType.input then
          match rawInputAt g cfg sq x y id with
          | some v => some (n.activation.eval v)
          | none => σ id
        else σ id
    | none => σ id

/-- One node of the serial `feed_forward` pass: `sum_inputs` starts from
the raw input for an input node (set by `set_inputs`) and from 0
otherwise, each enabled incoming connection adds `source.outputs *
weight` (a missing source node or an unset source output is the
`KeyError`/`None` crash, modelled as `none`), and the activation is
applied. -/
def serialNodeVal (g : Genome) (cfg : Config) (sq : ℚ → ℚ) (x y : ℚ)
    (σ : Int → Option ℚ) (id : Int) : Option ℚ :=
  match g.findNode id with
  | none => none
  | some n =>
      let base : Option ℚ :=
        if n.type = NodeType.input then rawInputAt g cfg sq x y id else some 0
      let s : Option ℚ := (g.incoming id).foldl
        (fun acc c => do
          let a ← acc
          let _ ← g.findNode c.key.1
          let v ← σ c.key.1
          pure (a + v * c.weight)) base
      s.map n.activation.eval

/-- The serial pass over one layer (nodes in layer order). -/
def serialLayerStep (g : Genome) (cfg : Config) (sq : ℚ → ℚ) (x y : ℚ)
    (σ : Int → Option ℚ) (layer : List Int) : Int → Option ℚ :=
  layer.foldl (fun σ id => updateState σ id (serialNodeVal g cfg sq x y σ id)) σ

/-- `CPPN.eval` = `set_inputs` followed by `feed_forward` (the layer list
with the input layer prepended), starting from the node-output state
`σ0` left by any previous evaluation. -/
def serialFeedForward (g : Genome) (cfg : Config) (sq : ℚ → ℚ) (x y : ℚ)
    (σ0 : Int → Option ℚ) : Int → Option ℚ :=
  (g.inputIds :: feedForwardLayers g).foldl (serialLayerStep g cfg sq x y)
    (serialSetInputs g cfg sq x y σ0)

/-- The stacked outputs of the output nodes, in genome order. -/
def collectOutputs (g : Genome) (σ : Int → Option ℚ) : List (Option ℚ) :=
  g.outputNodes.map (fun n => σ n.id)

/-- The pixel loop of `get_image_data_serial`: evaluate the coordinates
in order on the same genome, threading the node-output state (the code
mutates the node objects and never resets them between pixels). -/
def serialPixelsAux (g : Genome) (cfg : Config) (sq : ℚ → ℚ) :
    List (ℚ × ℚ) → (Int → Option ℚ) → List (List (Option ℚ))
  | [], _ => []
  | (x, y) :: rest, σ =>
      let σ1 := serialFeedForward g cfg sq x y σ
      collectOutputs g σ1 :: serialPixelsAux g cfg sq rest σ1

/-- The coordinate sequence of `get_image_data_serial`: `x` over
`linspace(res_w)` in the outer loop, `y` over `linspace(res_h)` in the
inner loop, evaluated as `eval([x, y])`. -/
def serialCoords (cfg : Config) : List (ℚ × ℚ) :=
  ((List.range cfg.resW).map (fun i =>
    (List.range cfg.resH).map (fun j =>
      (linspaceQ cfg.resW i, linspaceQ cfg.resH j)))).flatten

/-- The flat pixel sequence of `get_image_data_serial` before the
reshape, starting from fresh (`None`) node outputs. -/
def serialImageFlat (g : Genome) (cfg : Config) (sq : ℚ → ℚ) :
    List (Option ℚ) :=
  (serialPixelsAux g cfg sq (serialCoords cfg) (fun _ => none)).flatten

/-- The result of `get_image_data_serial`: after the pixel loop has
built the Python list `pixels` (`serialImageFlat`), the function calls
`torch.reshape(pixels, (res_w, res_h, n_outputs))` — but `torch.reshape`
requires a tensor as its first argument and `pixels` is a list, so the
call raises `TypeError` and the function never returns an image.  The
raised error is modelled as `none`. -/
def serialImage (g : Genome) (cfg : Config) (sq : ℚ → ℚ) :
    Option (List (Option ℚ)) :=
  none

/-- Channel `k` of `CPPN.pixel_inputs` as built by `initialize_inputs`:
defined for `k < n_inputs`, with pixel `(r, c)` holding feature `k` of
the vector `[y_r, x_c, radial?, bias?]`. -/
def pixelChannel (cfg : Config) (sq : ℚ → ℚ) (k : Nat) :
    Option (Nat → Nat → ℚ) :=
  if k < cfg.nInputs then
    some (fun r c =>
      ((inputVec cfg sq (linspaceQ cfg.resH r) (linspaceQ cfg.resW c)).get? k).getD 0)
  else none

/-- `reset_activations(parallel=True)`: every existing node's outputs
become the constant-`1/2` grid (`torch.ones(...)/2.0`). -/
def parallelInit (g : Genome) : Int → Option (Nat → Nat → ℚ) :=
  fun id => if id ∈ g.nodeIds then some (fun _ _ => 1/2) else none

/-- One node of the parallel pass: the accumulated input starts from the
pixel-input channel at the node's index within its layer for an input
node, and from the zero grid otherwise; enabled incoming connections add
`source * weight` elementwise; the activation is applied elementwise. -/
def parallelNodeVal (g : Genome) (cfg : Config) (sq : ℚ → ℚ)
    (σ : Int → Option (Nat → Nat → ℚ)) (nodeIndex : Nat) (id : Int) :
    Option (Nat → Nat → ℚ) :=
  match g.findNode id with
  | none => none
  | some n =>
      let base : Option (Nat → Nat → ℚ) :=
        if n.type = NodeType.input then pixelChannel cfg sq nodeIndex
        else some (fun _ _ => 0)
      let s : Option (Nat → Nat → ℚ) := (g.incoming id).foldl
        (fun acc c => do
          let a ← acc
          let _ ← g.findNode c.key.1
          let v ← σ c.key.1
          pure (fun r cc => a r cc + v r cc * c.weight)) base
      s.map (fun gr r cc => n.activation.eval (gr r cc))

/-- The parallel pass over one layer (`enumerate(layer)` supplies the
node index used for input channels). -/
def parallelLayerStep (g : Genome) (cfg : Config) (sq : ℚ → ℚ)
    (σ : Int → Option (Nat → Nat → ℚ)) (layer : List Int) :
    Int → Option (Nat → Nat → ℚ) :=
  layer.enum.foldl
    (fun σ p => updateState σ p.2 (parallelNodeVal g cfg sq σ p.1 p.2)) σ

/-- The layer loop of `get_image_data_parallel`, from the reset state. -/
def parallelFinalState (g : Genome) (cfg : Config) (sq : ℚ → ℚ) :
    Int → Option (Nat → Nat → ℚ) :=
  (g.inputIds :: feedForwardLayers g).foldl (parallelLayerStep g cfg sq)
    (parallelInit g)

/-- The assembled parallel output array before post-processing: the
output-node grids stacked and permuted to `(res_h, res_w, n_outputs)`
(for one- and two-channel color modes the reshape to `(res_h, res_w)`,
the `o = 0` slice of this).  Position `[r][c][o]` is output node `o`'s
grid at pixel `(r, c)`. -/
def parallelImageRaw (g : Genome) (cfg : Config) (sq : ℚ → ℚ)
    (r c o : Nat) : Option ℚ :=
  ((g.outputNodes.get? o).bind (fun n => parallelFinalState g cfg sq n.id)).map
    (fun gr => gr r c)

/-- Sequence a list of optional values (`none` models the crash that any
individual `none` would have caused earlier). -/
def optList : List (Option ℚ) → Option (List ℚ)
  | [] => some []
  | none :: _ => none
  | some v :: rest => (optList rest).map (fun l => v :: l)

/-- Every raw value of the parallel output array, for the min/max of
`normalize_image`. -/
def parallelAllRawVals (g : Genome) (cfg : Config) (sq : ℚ → ℚ) :
    List (Option ℚ) :=
  ((List.range cfg.resH).map (fun r =>
    ((List.range cfg.resW).map (fun c =>
      (List.range cfg.numOutputs).map (fun o =>
        parallelImageRaw g cfg sq r c o))).flatten)).flatten

/-- `CPPN.normalize_image` on one value: subtract the array minimum and
divide by the range when it is nonzero. -/
def normalizeVal (vs : List ℚ) (v : ℚ) : ℚ :=
  let mx := vs.foldl max (vs.headD 0)
  let mn := vs.foldl min (vs.headD 0)
  if mx - mn ≠ 0 then (v - mn) / (mx - mn) else v - mn

/-- `get_image_data_parallel`'s result: the raw array, min-max
normalized when `normalize_outputs` is set (the further HSL color-space
conversion applies only to the `'HSL'` color mode, which this embedding
does not model). -/
def parallelImage (g : Genome) (cfg : Config) (sq : ℚ → ℚ)
    (r c o : Nat) : Option ℚ :=
  if cfg.normalizeOutputs then
    match optList (parallelAllRawVals g cfg sq) with
    | none => none
    | some vs => (parallelImageRaw g cfg sq r c o).map (normalizeVal vs)
  else parallelImageRaw g cfg sq r c o

/-! ### Genome construction -/

/-- `CPPN.initialize_node_genome`: `n_inputs` input nodes with ids
`-1, -2, ...`, identity activation and layer 0; `n_outputs` output nodes
with the next negative ids, the configured (or a random) output
activation and layer 2; `hidden_nodes_at_start` hidden nodes with
counter-issued ids (`hiddenIds` oracle), random activations and
layer 1. -/
def initializeNodeGenome (cfg : Config) (acts : Nat → ActFn)
    (hiddenIds : Nat → Int) : List Node :=
  let nIn := cfg.nInputs
  let nOut := cfg.numOutputs
  ((List.range nIn).map (fun idx =>
    { id := -(1 + (idx : Int)), activation := ActFn.identity,
      type := NodeType.input, layer := 0 })) ++
  ((List.range nOut).map (fun k =>
    { id := -(1 + ((nIn + k : Nat) : Int)),
      activation := cfg.outputActivation.getD (acts (nIn + k)),
      type := NodeType.output, layer := 2 })) ++
  ((List.range cfg.hiddenNodesAtStart).map (fun k =>
    { id := hiddenIds k, activation := acts (nIn + nOut + k),
      type := NodeType.hidden, layer := 1 }))

/-- `CPPN.get_output_layer_index`: the layer field of the first
output-typed node (the code asserts one exists; 0 is the model's
default for the assertion failure). -/
def getOutputLayerIdx (nodes : List Node) : Nat :=
  ((nodes.find? (fun n => n.type = NodeType.output)).map (fun n => n.layer)).getD 0

/-- `CPPN.get_layer`: the nodes whose layer field equals `idx`, in
genome order. -/
def getLayerNodes (nodes : List Node) (idx : Nat) : List Node :=
  nodes.filter (fun n => n.layer = idx)

/-- The `(from_node, to_node)` pairs visited by
`initialize_connection_genome`, in loop order: `layer_index` from 0 to
the output layer index, `layer_to_index` strictly above it, all node
pairs of the two layers. -/
def initPairs (nodes : List Node) : List (Node × Node) :=
  let outIdx := getOutputLayerIdx nodes
  ((List.range (outIdx + 1)).map (fun li =>
    (((List.range (outIdx + 1)).filter (fun lt => li < lt)).map (fun lt =>
      ((getLayerNodes nodes li).map (fun f =>
        (getLayerNodes nodes lt).map (fun t => (f, t)))).flatten)).flatten)).flatten

/-- `CPPN.initialize_connection_genome`: one connection per visited
pair, with the sequential random weight, enabled unless the sequential
uniform draw exceeds `init_connection_probability`. -/
def initializeConnectionGenome (nodes : List Node) (cfg : Config)
    (w r : Nat → ℚ) : List Connection :=
  (initPairs nodes).enum.map (fun p =>
    { key := (p.2.1.id, p.2.2.id), weight := w p.1,
      enabled := ¬(r p.1 > cfg.initConnectionProbability) })

/-- `CPPN.__init__` with `nodes = None, connections = None`: build the
node genome then the connection genome; scores start at zero. -/
def constructGenome (cfg : Config) (acts : Nat → ActFn)
    (hiddenIds : Nat → Int) (w r : Nat → ℚ) : Genome :=
  let nodes := initializeNodeGenome cfg acts hiddenIds
  { nodes := nodes,
    connections := initializeConnectionGenome nodes cfg w r }

/-! ### Reachability (used only to state claims) -/

/-- One forward-reachability step along connection keys. -/
def reachStep (cxs : List (Int × Int)) (s : List Int) : List Int :=
  s ++ ((cxs.filter (fun p => p.1 ∈ s ∧ p.2 ∉ s)).map (fun p => p.2)).dedup

/-- Iterated forward reachability. -/
def reachAux (cxs : List (Int × Int)) : Nat → List Int → List Int
  | 0, s => s
  | fuel + 1, s => reachAux cxs fuel (reachStep cxs s)

/-- A node id is reachable from the inputs along connection keys. -/
@[reducible]
def reachableFromInputs (g : Genome) (id : Int) : Prop :=
  id ∈ reachAux g.cxKeys (g.cxKeys.length + 1) g.inputIds

/-- The invariant the `feed_forward_layers` loop maintains: each layer is
nonempty and duplicate-free, its members are new (not in the accumulated
set `s`), and every connection into a member has its source already in
`s`; the layer is then added to `s`. -/
def LayersOK (cxs : List (Int × Int)) : List Int → List (List Int) → Prop
  | _, [] => True
  | s, t :: rest =>
      (t ≠ [] ∧ t.Nodup ∧ ∀ n ∈ t, n ∉ s ∧ ∀ p ∈ cxs, p.2 = n → p.1 ∈ s) ∧
      LayersOK cxs (s ++ t) rest

/-- The layer value `assignLayer` writes, as a function of the node's id,
type and old layer only. -/
def newLayerVal (layers : List (List Int)) (id : Int) (t : NodeType)
    (old : Nat) : Nat :=
  match layers.findIdx? (fun l => id ∈ l) with
  | some k => k + 1
  | none => if t = NodeType.input then 0 else old

/-! ### Auxiliary notions for the serial/parallel agreement proof -/

/-- The node ids both evaluation paths compute fresh values for: the
input ids followed by every id the forward layering emits. -/
def Genome.doneIds (g : Genome) : List Int :=
  g.inputIds ++ (feedForwardLayers g).flatten

/-- The canonical per-pixel evaluation: `eval` from fresh (`None`) node
outputs. -/
def canonEval (g : Genome) (cfg : Config) (sq : ℚ → ℚ) (x y : ℚ) :
    Int → Option ℚ :=
  serialFeedForward g cfg sq x y (fun _ => none)

/-- The per-layer discipline both folds follow: each layer is
duplicate-free, its members are new, and every enabled incoming
connection of a member has its source in the already-processed set. -/
def FoldOK (g : Genome) : List Int → List (List Int) → Prop
  | _, [] => True
  | s, t :: rest =>
      (t.Nodup ∧ ∀ n ∈ t, n ∉ s ∧ ∀ c ∈ g.incoming n, c.key.1 ∈ s) ∧
      FoldOK g (s ++ t) rest

/-- The correspondence between a parallel state and the family of serial
states over the pixel grid, on a set of ids: the parallel grid holds at
`(r, c)` exactly the serial value for the coordinate pair
`(y_r, x_c)` — the swapped roles the code gives the two coordinates. -/
def PixelRel (σp : Int → Option (Nat → Nat → ℚ))
    (fam : Nat → Nat → Int → Option ℚ) (s : List Int) : Prop :=
  ∀ id ∈ s, ∃ gr, σp id = some gr ∧ ∀ r c, fam r c id = some (gr r c)

/-! ### Concrete instances used by counterexamples and witnesses -/

/-- A concrete configuration: 2×3 resolution, plain `(x, y)` inputs, one
output channel with a forced linear output activation, no starting
hidden nodes, full initial connectivity, recurrence disallowed, no
output normalization. -/
def cfgA : Config where
  resH := 2
  resW := 3
  useRadialDistance := false
  useInputBias := false
  numOutputs := 1
  hiddenNodesAtStart := 0
  outputActivation := some .linear
  initConnectionProbability := 1
  allowRecurrent := false
  normalizeOutputs := false
  maxWeight := 3
  weightMutationMax := 1
  probWeightReinit := 0
  probReenableConnection := 0
  weightThreshold := 0
  probAddNode := 0
  probRemoveNode := 0
  probAddConnection := 0
  probDisableConnection := 0
  probMutateWeight := 0
  probMutateActivation := 0
  allowInputActivationMutation := false

/-- A feed-forward genome with inputs `-1, -2`, output `-3`, connections
`(-1,-3)` with weight 1 and `(-2,-3)` with weight 0, both enabled. -/
def gC1x : Genome where
  nodes := [⟨-1, .identity, .input, 0⟩, ⟨-2, .identity, .input, 0⟩,
            ⟨-3, .linear, .output, 2⟩]
  connections := [⟨(-1, -3), 1, true, false⟩, ⟨(-2, -3), 0, true, false⟩]

/-- A genome whose output `-2` is required and reachable from input `-1`
but is never emitted by the forward layering, because its second
incoming connection comes from the source-less hidden node `0`. -/
def gC2x : Genome where
  nodes := [⟨-1, .identity, .input, 0⟩, ⟨-2, .linear, .output, 999⟩,
            ⟨0, .gauss, .hidden, 999⟩]
  connections := [⟨(-1, -2), 1, true, false⟩, ⟨(0, -2), 1, true, false⟩]

/-- A genome on which removing hidden node `0` strands the enabled
connection `(1, -2)` between two unlayered nodes (stale layers 999 and
3), which the validity check rejects. -/
def gC3x : Genome where
  nodes := [⟨-1, .identity, .input, 0⟩, ⟨-2, .linear, .output, 3⟩,
            ⟨0, .gauss, .hidden, 1⟩, ⟨1, .gauss, .hidden, 999⟩]
  connections := [⟨(-1, 0), 1, true, false⟩, ⟨(0, -2), 1, true, false⟩,
                  ⟨(1, -2), 1, true, false⟩]

/-- The node genome `initialize_node_genome` produces under `cfgA`:
inputs `-1, -2` (identity, layer 0) and output `-3` (the configured
linear activation, layer 2). -/
def nodesC5 : List Node :=
  [⟨-1, .identity, .input, 0⟩, ⟨-2, .identity, .input, 0⟩,
   ⟨-3, .linear, .output, 2⟩]

/-- The genome `__init__` produces under `cfgA` with weight draws
`w0, w1` and enabled flags `e0, e1` (each `¬(rand > 1)`). -/
def gC5Am (w0 w1 : ℚ) (e0 e1 : Bool) : Genome where
  nodes := nodesC5
  connections := [⟨(-1, -3), w0, e0, false⟩, ⟨(-2, -3), w1, e1, false⟩]

/-- A well-formed genome with one hidden node, used to witness the
remove-node and add-connection theorems. -/
def gW6 : Genome where
  nodes := [⟨-1, .identity, .input, 0⟩, ⟨0, .gauss, .hidden, 1⟩,
            ⟨-2, .linear, .output, 2⟩]
  connections := [⟨(-1, 0), 1, true, false⟩, ⟨(0, -2), 1, true, false⟩]

/-! ### Theorems -/

theorem zip_self {α : Type} (l : List α) : l.zip l = l.map (fun a => (a, a)) := by
  induction l with
  | nil => rfl
  | cons a rest ih => simp [List.zip_cons_cons, ih]

theorem sortCxs_key_mem (c : Connection) (l : List Connection) (h : c ∈ l) :
    c.key ∈ l.map (fun d => d.key) := List.mem_map_of_mem _ h

theorem getExcess_self (l : List Connection) :
    getExcessConnections l (l.map (fun d => d.key)) = [] := by
  unfold getExcessConnections
  split
  · rfl
  · next h =>
    rw [List.filter_eq_nil]
    intro c hc
    simp only [decide_eq_true_eq, not_and]
    intro hnot
    exact absurd (sortCxs_key_mem c l hc) hnot

theorem getDisjoint_self (l : List Connection) :
    getDisjointConnections l (l.map (fun d => d.key)) = [] := by
  unfold getDisjointConnections
  split
  · rfl
  · next h =>
    rw [List.filter_eq_nil]
    intro c hc
    simp only [decide_eq_true_eq, not_and]
    intro hnot
    exact absurd (sortCxs_key_mem c l hc) hnot

theorem getMatching_self (l : List Connection) :
    getMatchingConnections l l = (sortCxsByKey l, sortCxsByKey l) := by
  unfold getMatchingConnections
  have : l.filter (fun c1 => decide (c1.key ∈ l.map (fun c2 => c2.key))) = l := by
    rw [List.filter_eq_self]
    intro c hc
    simp only [decide_eq_true_eq]
    exact sortCxs_key_mem c l hc
  rw [this]

/-- Claim C8: the genetic distance of any genome with itself is exactly
zero: no excess or disjoint connections, zero mean weight difference over
the matching connections, and no activation-name mismatches, so the
weighted sum is 0. -/
theorem claim_C8_distance_self_zero (g : Genome) : geneticDifference g g = 0 := by
  have hzip : ∀ m : List Connection,
      (m.zip m).map (fun p => |p.1.weight - p.2.weight|) = m.map (fun _ => (0 : ℚ)) := by
    intro m
    rw [zip_self, List.map_map]
    have hcomp : ((fun (p : Connection × Connection) => |p.1.weight - p.2.weight|) ∘
        fun a => (a, a)) = (fun _ => (0 : ℚ)) := by
      funext a
      simp [Function.comp]
    rw [hcomp]
  have hsum : ∀ m : List Connection, (m.map (fun _ => (0 : ℚ))).sum = 0 := by
    intro m
    apply List.sum_eq_zero
    intro x hx
    simp at hx
    exact hx.2
  have hfns : (g.nodes.zip g.nodes).filter
      (fun p => decide (p.1.activation.name ≠ p.2.activation.name)) = [] := by
    rw [zip_self, List.filter_map, List.map_eq_nil]
    rw [List.filter_eq_nil]
    intro n _
    simp [Function.comp]
  unfold geneticDifference
  dsimp only
  rw [getMatching_self]
  dsimp only
  rw [getExcess_self, getDisjoint_self, hzip, hsum, hfns]
  simp only [List.length_nil, Nat.cast_zero, List.length_map, mul_ite, mul_zero]
  split <;> split <;> simp

theorem updateNodeLayers_connections (g : Genome) :
    (updateNodeLayers g).connections = g.connections := rfl

theorem updateNodeLayers_fitness (g : Genome) :
    (updateNodeLayers g).fitness = g.fitness := rfl

theorem assignLayer_id (layers : List (List Int)) (n : Node) :
    (assignLayer layers n).id = n.id := by
  unfold assignLayer
  split
  · rfl
  · split <;> rfl

theorem assignLayer_type (layers : List (List Int)) (n : Node) :
    (assignLayer layers n).type = n.type := by
  unfold assignLayer
  split
  · rfl
  · split <;> rfl

theorem assignLayer_activation (layers : List (List Int)) (n : Node) :
    (assignLayer layers n).activation = n.activation := by
  unfold assignLayer
  split
  · rfl
  · split <;> rfl

theorem filterMap_ids_assign (g : Genome) (layers : List (List Int))
    (t : NodeType) :
    ((g.nodes.map (assignLayer layers)).filter
        (fun n => n.type = t)).map (fun n => n.id) =
      (g.nodes.filter (fun n => n.type = t)).map (fun n => n.id) := by
  rw [List.filter_map]
  have h1 : ((fun (n : Node) => decide (n.type = t)) ∘ assignLayer layers) =
      (fun n => decide (n.type = t)) := by
    funext n
    simp [Function.comp, assignLayer_type]
  rw [h1, List.map_map]
  have h2 : ((fun (n : Node) => n.id) ∘ assignLayer layers) =
      (fun n => n.id) := by
    funext n
    simp [Function.comp, assignLayer_id]
  rw [h2]

theorem updateNodeLayers_inputIds (g : Genome) :
    (updateNodeLayers g).inputIds = g.inputIds := by
  unfold Genome.inputIds Genome.inputNodes updateNodeLayers
  exact filterMap_ids_assign g _ _

theorem updateNodeLayers_outputIds (g : Genome) :
    (updateNodeLayers g).outputIds = g.outputIds := by
  unfold Genome.outputIds Genome.outputNodes updateNodeLayers
  exact filterMap_ids_assign g _ _

theorem updateNodeLayers_cxKeys (g : Genome) :
    (updateNodeLayers g).cxKeys = g.cxKeys := rfl

theorem feedForwardLayers_congr (g g' : Genome)
    (hin : g'.inputIds = g.inputIds) (hout : g'.outputIds = g.outputIds)
    (hcx : g'.cxKeys = g.cxKeys) :
    feedForwardLayers g' = feedForwardLayers g := by
  unfold feedForwardLayers
  rw [hin, hout, hcx]

theorem feedForwardLayers_update (g : Genome) :
    feedForwardLayers (updateNodeLayers g) = feedForwardLayers g :=
  feedForwardLayers_congr g _ (updateNodeLayers_inputIds g)
    (updateNodeLayers_outputIds g) (updateNodeLayers_cxKeys g)

theorem assignLayer_eq (layers : List (List Int)) (n : Node) :
    assignLayer layers n =
      { n with layer := newLayerVal layers n.id n.type n.layer } := by
  unfold assignLayer newLayerVal
  rcases layers.findIdx? (fun l => decide (n.id ∈ l)) with _ | k
  · dsimp only
    split <;> rfl
  · rfl

theorem assignLayer_idem (layers : List (List Int)) (n : Node) :
    assignLayer layers (assignLayer layers n) = assignLayer layers n := by
  rw [assignLayer_eq layers n, assignLayer_eq layers]
  have hv : newLayerVal layers n.id n.type
      (newLayerVal layers n.id n.type n.layer) =
      newLayerVal layers n.id n.type n.layer := by
    unfold newLayerVal
    rcases layers.findIdx? (fun l => decide (n.id ∈ l)) with _ | k
    · dsimp only
      split <;> rfl
    · rfl
  show ({ n with layer := _ } : Node) = _
  rw [hv]

/-- Claim C9: layer assignment is idempotent: running
`update_node_layers` twice produces exactly the same genome (hence the
same layer for every node) as running it once. -/
theorem claim_C9_layering_idempotent (g : Genome) :
    updateNodeLayers (updateNodeLayers g) = updateNodeLayers g := by
  have hffl := feedForwardLayers_update g
  unfold updateNodeLayers at hffl ⊢
  dsimp only at hffl ⊢
  rw [hffl, List.map_map]
  have hcomp : (assignLayer (feedForwardLayers g)) ∘ (assignLayer (feedForwardLayers g)) =
      assignLayer (feedForwardLayers g) := by
    funext n
    exact assignLayer_idem _ n
  rw [hcomp]

/-- The triple of externally assigned scores. -/
theorem updateNodeLayers_scores (g : Genome) :
    ((updateNodeLayers g).fitness, (updateNodeLayers g).adjustedFitness,
      (updateNodeLayers g).novelty) = (g.fitness, g.adjustedFitness, g.novelty) := rfl

theorem addNode_scores (cfg : Config) (choice : Nat) (act : ActFn) (nid : Int)
    (g : Genome) :
    ((addNode cfg choice act nid g).fitness,
      (addNode cfg choice act nid g).adjustedFitness,
      (addNode cfg choice act nid g).novelty) =
      (g.fitness, g.adjustedFitness, g.novelty) := by
  unfold addNode
  dsimp only
  split <;> rfl

theorem removeNode_scores (choice : Nat) (g : Genome) :
    ((removeNode choice g).fitness, (removeNode choice g).adjustedFitness,
      (removeNode choice g).novelty) = (g.fitness, g.adjustedFitness, g.novelty) := by
  unfold removeNode
  dsimp only
  split <;> rfl

theorem addConnectionAux_scores (cfg : Config) (w re : ℚ) :
    ∀ (attempts : List (Int × Int)) (g : Genome),
      ((addConnectionAux cfg w re g attempts).fitness,
        (addConnectionAux cfg w re g attempts).adjustedFitness,
        (addConnectionAux cfg w re g attempts).novelty) =
        (g.fitness, g.adjustedFitness, g.novelty) := by
  intro attempts
  induction attempts with
  | nil => intro g; rfl
  | cons key rest ih =>
      intro g
      unfold addConnectionAux
      split
      · rfl
      · split
        · rfl
        · exact ih g

theorem disableConnection_scores (choice : Nat) (g : Genome) :
    ((disableConnection choice g).fitness,
      (disableConnection choice g).adjustedFitness,
      (disableConnection choice g).novelty) =
      (g.fitness, g.adjustedFitness, g.novelty) := by
  unfold disableConnection
  dsimp only
  split <;> rfl

theorem mutateActivations_scores (cfg : Config) (prob : ℚ) (r : Int → ℚ)
    (pick : Int → ActFn) (g : Genome) :
    ((mutateActivations cfg prob r pick g).fitness,
      (mutateActivations cfg prob r pick g).adjustedFitness,
      (mutateActivations cfg prob r pick g).novelty) =
      (g.fitness, g.adjustedFitness, g.novelty) := rfl

theorem mutateWeights_scores (cfg : Config) (prob : ℚ)
    (r1 r2 delta reinit : (Int × Int) → ℚ) (g : Genome) :
    ((mutateWeights cfg prob r1 r2 delta reinit g).fitness,
      (mutateWeights cfg prob r1 r2 delta reinit g).adjustedFitness,
      (mutateWeights cfg prob r1 r2 delta reinit g).novelty) =
      (g.fitness, g.adjustedFitness, g.novelty) := rfl

/-- Scores of a gated (`if`-guarded) operator application. -/
theorem ite_scores (c : Prop) [Decidable c] (f : Genome → Genome)
    (hf : ∀ h : Genome, ((f h).fitness, (f h).adjustedFitness, (f h).novelty) =
      (h.fitness, h.adjustedFitness, h.novelty)) (h : Genome) :
    ((if c then f h else h).fitness, (if c then f h else h).adjustedFitness,
      (if c then f h else h).novelty) =
      (h.fitness, h.adjustedFitness, h.novelty) := by
  split
  · exact hf h
  · rfl

/-- Claim C10 (implicit): every `mutate` call zeroes `fitness`,
`adjusted_fitness` and `novelty` before applying any operator, and no
operator writes them, so the result always carries zero scores whatever
the genome, configuration and random draws were. -/
theorem claim_C10_mutate_resets_scores (cfg : Config) (o : MutationOracle)
    (g : Genome) :
    (mutate cfg o g).fitness = 0 ∧ (mutate cfg o g).adjustedFitness = 0 ∧
      (mutate cfg o g).novelty = 0 := by
  unfold mutate
  dsimp only
  set g0 : Genome := { g with fitness := 0, adjustedFitness := 0, novelty := 0 } with hg0
  set g1 := if o.gateAddNode < cfg.probAddNode then
    addNode cfg o.addNodeChoice o.addNodeAct o.addNodeNewId g0 else g0 with hg1
  set g2 := if o.gateRemoveNode < cfg.probRemoveNode then
    removeNode o.removeChoice g1 else g1 with hg2
  set g3 := if o.gateAddConnection < cfg.probAddConnection then
    addConnection cfg o.attempts o.newWeight o.reenable g2 else g2 with hg3
  set g4 := if o.gateDisableConnection < cfg.probDisableConnection then
    disableConnection o.disableChoice g3 else g3 with hg4
  have e1 : (g1.fitness, g1.adjustedFitness, g1.novelty) =
      (g0.fitness, g0.adjustedFitness, g0.novelty) :=
    ite_scores _ _ (addNode_scores cfg o.addNodeChoice o.addNodeAct o.addNodeNewId) g0
  have e2 : (g2.fitness, g2.adjustedFitness, g2.novelty) =
      (g1.fitness, g1.adjustedFitness, g1.novelty) :=
    ite_scores _ _ (removeNode_scores o.removeChoice) g1
  have e3 : (g3.fitness, g3.adjustedFitness, g3.novelty) =
      (g2.fitness, g2.adjustedFitness, g2.novelty) :=
    ite_scores _ _ (fun h => addConnectionAux_scores cfg o.newWeight o.reenable o.attempts h) g2
  have e4 : (g4.fitness, g4.adjustedFitness, g4.novelty) =
      (g3.fitness, g3.adjustedFitness, g3.novelty) :=
    ite_scores _ _ (disableConnection_scores o.disableChoice) g3
  have e5 := mutateActivations_scores cfg cfg.probMutateActivation o.actR o.actPick g4
  have e6 := mutateWeights_scores cfg cfg.probMutateWeight o.wR1 o.wR2 o.wDelta o.wReinit
    (mutateActivations cfg cfg.probMutateActivation o.actR o.actPick g4)
  have e7 := updateNodeLayers_scores
    (mutateWeights cfg cfg.probMutateWeight o.wR1 o.wR2 o.wDelta o.wReinit
      (mutateActivations cfg cfg.probMutateActivation o.actR o.actPick g4))
  have efinal := e7.trans (e6.trans (e5.trans (e4.trans (e3.trans (e2.trans e1)))))
  have hz : (g0.fitness, g0.adjustedFitness, g0.novelty) = ((0 : ℚ), (0 : ℚ), (0 : ℚ)) := rfl
  rw [hz] at efinal
  refine ⟨?_, ?_, ?_⟩
  · exact congrArg Prod.fst efinal
  · exact congrArg Prod.fst (congrArg Prod.snd efinal)
  · exact congrArg Prod.snd (congrArg Prod.snd efinal)

theorem updateNodeLayers_nodeIds (g : Genome) :
    (updateNodeLayers g).nodeIds = g.nodeIds := by
  unfold Genome.nodeIds updateNodeLayers
  dsimp only
  rw [List.map_map]
  have hcomp : ((fun (n : Node) => n.id) ∘ assignLayer (feedForwardLayers g)) =
      (fun n => n.id) := by
    funext n
    exact assignLayer_id _ n
  rw [hcomp]

theorem removeLastWithId_ids (rid a : Int) (ha : a ≠ rid) :
    ∀ ns : List Node, a ∈ ns.map (fun n => n.id) →
      a ∈ (removeLastWithId ns rid).map (fun n => n.id) := by
  intro ns
  induction ns with
  | nil => intro h; simp at h
  | cons n rest ih =>
      intro h
      unfold removeLastWithId
      split
      · next hcond =>
        rcases List.mem_map.mp h with ⟨m, hm, hid⟩
        rcases List.mem_cons.mp hm with hm1 | hm2
        · exact absurd (hid ▸ hm1 ▸ rfl : a = n.id) (by rw [hcond.2]; exact ha)
        · exact List.mem_map.mpr ⟨m, hm2, hid⟩
      · rcases List.mem_map.mp h with ⟨m, hm, hid⟩
        rcases List.mem_cons.mp hm with hm1 | hm2
        · subst hm1
          exact List.mem_map.mpr ⟨m, List.mem_cons_self _ _, hid⟩
        · have := ih (List.mem_map.mpr ⟨m, hm2, hid⟩)
          rcases List.mem_map.mp this with ⟨m', hm', hid'⟩
          exact List.mem_map.mpr ⟨m', List.mem_cons_of_mem _ hm', hid'⟩

/-- Claim C6: `remove_node` preserves the endpoint-existence invariant:
if every connection's endpoints are node ids of the genome then, after
the call (which deletes every connection incident to the removed node
and then only relabels layers), every remaining connection still has
both endpoints in the node genome. -/
theorem claim_C6_remove_node_no_dangling (g : Genome) (choice : Nat)
    (hend : ∀ c ∈ g.connections, c.key.1 ∈ g.nodeIds ∧ c.key.2 ∈ g.nodeIds) :
    ∀ c ∈ (removeNode choice g).connections,
      c.key.1 ∈ (removeNode choice g).nodeIds ∧
        c.key.2 ∈ (removeNode choice g).nodeIds := by
  unfold removeNode
  dsimp only
  split
  · exact hend
  · next n _ =>
    intro c hc
    have hdis : ∀ h : Genome, disableInvalidConnections h = h := fun _ => rfl
    rw [hdis, updateNodeLayers_connections] at hc
    rw [hdis, updateNodeLayers_nodeIds]
    dsimp only [Genome.nodeIds] at hc ⊢
    have hmem := List.mem_filter.mp hc
    have hcm : c ∈ g.connections := hmem.1
    have hpred := of_decide_eq_true hmem.2
    push_neg at hpred
    have h1 : c.key.1 ≠ n.id := fun h => hpred.1 h.symm
    have h2 : c.key.2 ≠ n.id := fun h => hpred.2 h.symm
    rcases hend c hcm with ⟨he1, he2⟩
    exact ⟨removeLastWithId_ids n.id c.key.1 h1 g.nodes he1,
      removeLastWithId_ids n.id c.key.2 h2 g.nodes he2⟩

theorem claim_C6_remove_node_no_dangling_witness :
    (∀ c ∈ gW6.connections, c.key.1 ∈ gW6.nodeIds ∧ c.key.2 ∈ gW6.nodeIds) ∧
      ∀ c ∈ (removeNode 0 gW6).connections,
        c.key.1 ∈ (removeNode 0 gW6).nodeIds ∧
          c.key.2 ∈ (removeNode 0 gW6).nodeIds :=
  ⟨by decide, claim_C6_remove_node_no_dangling gW6 0 (by decide)⟩

theorem cxKeys_map_keyPreserving (g : Genome) (f : Connection → Connection)
    (hf : ∀ c, (f c).key = c.key) :
    (g.connections.map f).map (fun c => c.key) = g.cxKeys := by
  unfold Genome.cxKeys
  rw [List.map_map]
  have : ((fun (c : Connection) => c.key) ∘ f) = fun c => c.key := by
    funext c
    exact hf c
  rw [this]

theorem find?_none_not_mem_keys (g : Genome) (key : Int × Int)
    (h : g.connections.find? (fun c => c.key = key) = none) : key ∉ g.cxKeys := by
  intro hmem
  rcases List.mem_map.mp hmem with ⟨c, hc, hk⟩
  have := List.find?_eq_none.mp h c hc
  simp [hk] at this

/-- Claim C7: one `add_connection` call never duplicates a key and adds
at most one connection: for every attempt sequence the key list is
either unchanged (an attempt hit an existing pair — possibly re-enabling
it — or every attempt failed) or extended by exactly one previously
absent key; and when every sampled pair either already exists or fails
the validity check (e.g. on a fully connected feed-forward genome), the
key list — hence the connection count — is unchanged. -/
theorem claim_C7_add_connection_spec (cfg : Config) (attempts : List (Int × Int))
    (w re : ℚ) (g : Genome) :
    ((addConnection cfg attempts w re g).cxKeys = g.cxKeys ∨
      ∃ k, k ∉ g.cxKeys ∧
        (addConnection cfg attempts w re g).cxKeys = g.cxKeys ++ [k]) ∧
    ((∀ p ∈ attempts, p ∈ g.cxKeys ∨ isValidConnection g p cfg = false) →
      (addConnection cfg attempts w re g).cxKeys = g.cxKeys) := by
  unfold addConnection
  induction attempts with
  | nil => exact ⟨Or.inl rfl, fun _ => rfl⟩
  | cons key rest ih =>
      unfold addConnectionAux
      rcases hfind : g.connections.find? (fun c => c.key = key) with _ | cx
      · rw [hfind]
        dsimp only
        split
        · next hvalid =>
          constructor
          · refine Or.inr ⟨key, find?_none_not_mem_keys g key hfind, ?_⟩
            rw [updateNodeLayers_cxKeys]
            unfold Genome.cxKeys
            dsimp only
            rw [List.map_append]
            rfl
          · intro hall
            rcases hall key (List.mem_cons_self _ _) with hmem | hinvalid
            · exact absurd hmem (find?_none_not_mem_keys g key hfind)
            · rw [hvalid] at hinvalid
              cases hinvalid
        · constructor
          · exact ih.1
          · intro hall
            exact ih.2 (fun p hp => hall p (List.mem_cons_of_mem _ hp))
      · rw [hfind]
        dsimp only
        have hkeys := cxKeys_map_keyPreserving g
          (fun c => if c.key = key ∧ c.enabled = false ∧ re < cfg.probReenableConnection
            then { c with enabled := true } else c)
          (by
            intro c
            dsimp only
            split <;> rfl)
        exact ⟨Or.inl hkeys, fun _ => hkeys⟩

theorem claim_C7_add_connection_spec_witness :
    (∀ p ∈ [((-1 : Int), (0 : Int))],
      p ∈ gW6.cxKeys ∨ isValidConnection gW6 p cfgA = false) ∧
    (addConnection cfgA [((-1 : Int), (0 : Int))] 1 0 gW6).cxKeys = gW6.cxKeys :=
  ⟨by decide,
    (claim_C7_add_connection_spec cfgA [((-1 : Int), (0 : Int))] 1 0 gW6).2 (by decide)⟩

/-- Claim C3 (code bug): `disable_invalid_connections` begins with
`return  # TODO?`, so `remove_node` never disables anything.  On `gC3x`
(which has two hidden nodes), removing hidden node `0` leaves the
enabled connection `(1, -2)` in place even though the validity check now
rejects it (stale layers 999 ≥ 3), contradicting the claim that any
connection the validity check rejects is disabled. -/
theorem claim_C3_remove_node_leaves_invalid_enabled :
    gC3x.hiddenNodes.length = 2 ∧
    ((removeNode 0 gC3x).connections.map (fun c => (c.key, c.enabled))) =
      [((1, -2), true)] ∧
    isValidConnection (removeNode 0 gC3x) (1, -2) cfgA = false := by
  refine ⟨by decide, ?_, by decide⟩
  decide

/-- C1 (code bug): `get_image_data_serial` ends by calling
`torch.reshape` on the Python list `pixels` it accumulated, which raises
`TypeError` (`torch.reshape` requires a tensor), so the serial path
raises and returns no array while the parallel path returns one — the
claimed equality of the two output arrays cannot hold on any input.  On
the feed-forward genome `gC1x` (no recurrent edges) under the 2×3
configuration `cfgA`: the serial result is the modelled error, although
the pixel loop did compute the value `0` for coordinate
`(x_1, y_1) = (0, 1/2)` (flat list position `(1*res_h+1)*n_outputs`)
before the crash, and the parallel image holds `1/2` at position
`(1,1,0)` (it evaluates that pixel at the swapped coordinates
`(y_1, x_1) = (1/2, 0)`); the two values differ, so even repairing the
reshape would leave the paths unequal — they swap the coordinate roles
of the two input features and transpose the array. -/
theorem claim_C1_serial_reshape_crash :
    (∀ c ∈ gC1x.connections, c.isRecurrent = false) ∧
    serialImage gC1x cfgA (fun q => q) = none ∧
    (serialImageFlat gC1x cfgA (fun q => q)).get?
      ((1 * cfgA.resH + 1) * cfgA.numOutputs) = some (some 0) ∧
    parallelImage gC1x cfgA (fun q => q) 1 1 0 = some (1/2) ∧
    some ((0 : ℚ)) ≠ some ((1 : ℚ)/2) := by
  refine ⟨by decide, rfl, by with_unfolding_all rfl, by with_unfolding_all rfl,
    by norm_num⟩

/-- Counterexample to claim C2 as stated: in `gC2x` the output node `-2`
is required and reachable from the inputs, yet the forward layering
emits no layers, so `-2` keeps its sentinel layer 999 and the connection
`(0, -2)` has `layer(source) = 999 ≥ 999 = layer(target)` after
`update_node_layers`, with recurrence disallowed. -/
theorem claim_C2_counterexample :
    (-2 : Int) ∈ requiredForOutput gC2x.inputIds gC2x.outputIds gC2x.cxKeys ∧
    reachableFromInputs gC2x (-2) ∧
    feedForwardLayers gC2x = [] ∧
    ((updateNodeLayers gC2x).findNode (-2)).map Node.layer = some 999 ∧
    ((updateNodeLayers gC2x).findNode 0).map Node.layer = some 999 ∧
    ((0 : Int), (-2 : Int)) ∈ gC2x.cxKeys := by
  refine ⟨by decide, by decide, by decide, by decide, by decide, by decide⟩

/-- Counterexample to claim C5 as stated: the freshly constructed
2-input/1-output genome's output node carries layer 2 (set literally by
`initialize_node_genome`), not 1 — `__init__` never calls
`update_node_layers`. -/
theorem claim_C5_counterexample :
    ((constructGenome cfgA (fun _ => .gauss) (fun _ => 0) (fun _ => 0)
        (fun _ => 0)).findNode (-3)).map Node.layer = some 2 ∧
      some (2 : Nat) ≠ some (1 : Nat) := by
  refine ⟨by decide, by decide⟩

/-- Claim C5, amended: constructing a genome under `cfgA` (2 inputs,
1 output, 0 starting hidden nodes, `init_connection_probability = 1`,
linear output activation) with weight draws `w0, w1` and uniform draws
`r i ∈ [0, 1)` yields exactly the two enabled connections
`(input0 → output)` and `(input1 → output)`; the output node's layer is
2 at construction (`__init__` never recomputes layers) and becomes 1
after `update_node_layers`; and evaluating the genome at `(0, 0)` with
the identity input activations returns `w0*0 + w1*0 = 0`. -/
theorem claim_C5_amended (w0 w1 : ℚ) (r : Nat → ℚ)
    (hr : ∀ i, 0 ≤ r i ∧ r i < 1) :
    (constructGenome cfgA (fun _ => .gauss) (fun _ => 0)
        (fun k => if k = 0 then w0 else w1) r).cxKeys = [(-1, -3), (-2, -3)] ∧
    (∀ c ∈ (constructGenome cfgA (fun _ => .gauss) (fun _ => 0)
        (fun k => if k = 0 then w0 else w1) r).connections, c.enabled = true) ∧
    ((constructGenome cfgA (fun _ => .gauss) (fun _ => 0)
        (fun k => if k = 0 then w0 else w1) r).findNode (-3)).map Node.layer =
      some 2 ∧
    ((updateNodeLayers (constructGenome cfgA (fun _ => .gauss) (fun _ => 0)
        (fun k => if k = 0 then w0 else w1) r)).findNode (-3)).map Node.layer =
      some 1 ∧
    collectOutputs
      (constructGenome cfgA (fun _ => .gauss) (fun _ => 0)
        (fun k => if k = 0 then w0 else w1) r)
      (serialFeedForward
        (constructGenome cfgA (fun _ => .gauss) (fun _ => 0)
          (fun k => if k = 0 then w0 else w1) r)
        cfgA (fun q => q) 0 0 (fun _ => none)) = [some 0] := by
  have hle : ∀ i, r i ≤ (1 : ℚ) := fun i => le_of_lt (lt_of_lt_of_le (hr i).2 (by norm_num))
  have hpairs : (initPairs nodesC5).enum =
      [(0, (⟨-1, .identity, .input, 0⟩, ⟨-3, .linear, .output, 2⟩)),
       (1, (⟨-2, .identity, .input, 0⟩, ⟨-3, .linear, .output, 2⟩))] := rfl
  have hnodes : initializeNodeGenome cfgA (fun _ => .gauss) (fun _ => 0) = nodesC5 := rfl
  have hcx : initializeConnectionGenome nodesC5 cfgA
      (fun k => if k = 0 then w0 else w1) r =
      [⟨(-1, -3), w0, true, false⟩, ⟨(-2, -3), w1, true, false⟩] := by
    unfold initializeConnectionGenome
    rw [hpairs]
    simp only [List.map_cons, List.map_nil]
    norm_num [cfgA]
    exact ⟨hle 0, hle 1⟩
  have hg : constructGenome cfgA (fun _ => .gauss) (fun _ => 0)
      (fun k => if k = 0 then w0 else w1) r = gC5Am w0 w1 true true := by
    unfold constructGenome
    dsimp only
    rw [hnodes, hcx]
    rfl
  have hffl : feedForwardLayers (gC5Am w0 w1 true true) = [[-3]] := by
    rw [feedForwardLayers_congr (gC5Am 0 0 true true) (gC5Am w0 w1 true true) rfl rfl rfl]
    decide
  rw [hg]
  refine ⟨rfl, ?_, rfl, ?_, ?_⟩
  · intro c hc
    have hl : (gC5Am w0 w1 true true).connections =
        [⟨(-1, -3), w0, true, false⟩, ⟨(-2, -3), w1, true, false⟩] := rfl
    rw [hl] at hc
    rcases List.mem_cons.mp hc with h | h
    · rw [h]
    · rcases List.mem_cons.mp h with h2 | h2
      · rw [h2]
      · simp at h2
  · unfold updateNodeLayers
    rw [hffl]
    with_unfolding_all rfl
  · have heval : collectOutputs (gC5Am w0 w1 true true)
        (serialFeedForward (gC5Am w0 w1 true true) cfgA (fun q => q) 0 0
          (fun _ => none)) =
        [some (0 + 0 * w0 + 0 * w1)] := by
      unfold serialFeedForward
      rw [hffl]
      with_unfolding_all rfl
    rw [heval]
    norm_num

theorem claim_C5_amended_witness :
    (∀ i : Nat, 0 ≤ ((fun _ => (0 : ℚ)) i) ∧ ((fun _ => (0 : ℚ)) i) < 1) ∧
    (constructGenome cfgA (fun _ => .gauss) (fun _ => 0)
        (fun k => if k = 0 then (1 : ℚ) else 2) (fun _ => 0)).cxKeys =
      [(-1, -3), (-2, -3)] ∧
    (∀ c ∈ (constructGenome cfgA (fun _ => .gauss) (fun _ => 0)
        (fun k => if k = 0 then (1 : ℚ) else 2) (fun _ => 0)).connections,
      c.enabled = true) ∧
    ((constructGenome cfgA (fun _ => .gauss) (fun _ => 0)
        (fun k => if k = 0 then (1 : ℚ) else 2) (fun _ => 0)).findNode
          (-3)).map Node.layer = some 2 ∧
    ((updateNodeLayers (constructGenome cfgA (fun _ => .gauss) (fun _ => 0)
        (fun k => if k = 0 then (1 : ℚ) else 2) (fun _ => 0))).findNode
          (-3)).map Node.layer = some 1 ∧
    collectOutputs
      (constructGenome cfgA (fun _ => .gauss) (fun _ => 0)
        (fun k => if k = 0 then (1 : ℚ) else 2) (fun _ => 0))
      (serialFeedForward
        (constructGenome cfgA (fun _ => .gauss) (fun _ => 0)
          (fun k => if k = 0 then (1 : ℚ) else 2) (fun _ => 0))
        cfgA (fun q => q) 0 0 (fun _ => none)) = [some 0] :=
  ⟨fun _ => ⟨le_refl 0, by norm_num⟩,
    claim_C5_amended 1 2 (fun _ => 0) (fun _ => ⟨le_refl 0, by norm_num⟩)⟩

theorem mem_exists_get? {α : Type} {l : List α} {a : α} (h : a ∈ l) :
    ∃ k, l.get? k = some a := by
  rcases List.mem_iff_getElem?.mp h with ⟨k, hk⟩
  exact ⟨k, by rw [List.get?_eq_getElem?]; exact hk⟩

theorem get?_mem_flatten_take {L : List (List Int)} {j k : Nat}
    {lj : List Int} {x : Int} (hget : L.get? j = some lj) (hjk : j < k)
    (hx : x ∈ lj) : x ∈ (L.take k).flatten := by
  rw [List.mem_flatten]
  refine ⟨lj, ?_, hx⟩
  have : (L.take k).get? j = some lj := by
    rw [List.get?_eq_getElem?] at hget ⊢
    rw [List.getElem?_take]
    simp [hjk, hget]
  exact List.get?_mem this

theorem fflAux_ok (req : List Int) (cxs : List (Int × Int)) :
    ∀ (fuel : Nat) (s : List Int), LayersOK cxs s (fflAux req cxs fuel s) := by
  intro fuel
  induction fuel with
  | zero => intro s; trivial
  | succ n ih =>
      intro s
      unfold fflAux
      dsimp only
      split
      · trivial
      · next hne =>
        refine ⟨⟨hne, ?_, ?_⟩, ih _⟩
        · exact (List.nodup_dedup _).filter _
        · intro m hm
          have hmc : m ∈ candidateNodes s cxs := List.mem_of_mem_filter hm
          have hfilt := List.of_mem_filter hm
          simp only [decide_eq_true_eq] at hfilt
          refine ⟨?_, hfilt.2⟩
          unfold candidateNodes at hmc
          rcases List.mem_map.mp (List.mem_dedup.mp hmc) with ⟨p, hp, hpe⟩
          have hpf := List.of_mem_filter hp
          simp only [decide_eq_true_eq] at hpf
          rw [← hpe]
          exact hpf.2

theorem layersOK_get (cxs : List (Int × Int)) :
    ∀ (L : List (List Int)) (s : List Int), LayersOK cxs s L →
      ∀ k l, L.get? k = some l → l.Nodup ∧ ∀ n ∈ l,
        n ∉ s ++ (L.take k).flatten ∧
        ∀ p ∈ cxs, p.2 = n → p.1 ∈ s ++ (L.take k).flatten := by
  intro L
  induction L with
  | nil =>
      intro s _ k l hget
      simp at hget
  | cons t rest ih =>
      intro s hok k l hget
      rcases k with _ | k
      · have hl : t = l := by simpa using hget
        subst hl
        rcases hok.1 with ⟨_, hnd, hmem⟩
        refine ⟨hnd, ?_⟩
        intro n hn
        rcases hmem n hn with ⟨hns, hsrc⟩
        refine ⟨by simpa using hns, ?_⟩
        intro p hp hpe
        have := hsrc p hp hpe
        simp [this]
      · have hrest := ih (s ++ t) hok.2 k l (by simpa using hget)
        refine ⟨hrest.1, ?_⟩
        intro n hn
        rcases hrest.2 n hn with ⟨hnotin, hsrc⟩
        constructor
        · intro hmem
          apply hnotin
          simp only [List.take, List.flatten_cons, List.mem_append] at hmem ⊢
          tauto
        · intro p hp hpe
          have := hsrc p hp hpe
          simp only [List.take, List.flatten_cons, List.mem_append] at this ⊢
          tauto

theorem findIdx?_mem_none (n : Int) :
    ∀ (L : List (List Int)) (i : Nat), (∀ l ∈ L, n ∉ l) →
      L.findIdx? (fun l => n ∈ l) i = none := by
  intro L
  induction L with
  | nil => intro i _; simp [List.findIdx?_nil]
  | cons t rest ih =>
      intro i hall
      rw [List.findIdx?_cons]
      have hd : (decide (n ∈ t)) = false := by
        simp only [decide_eq_false_iff_not]
        exact hall t (List.mem_cons_self _ _)
      rw [hd]
      simp only [Bool.false_eq_true, if_false]
      exact ih (i + 1) (fun l hl => hall l (List.mem_cons_of_mem _ hl))

theorem findIdx?_mem_some (n : Int) :
    ∀ (L : List (List Int)) (k : Nat) (l : List Int) (i : Nat),
      L.get? k = some l → n ∈ l →
      (∀ j lj, j < k → L.get? j = some lj → n ∉ lj) →
      L.findIdx? (fun l => n ∈ l) i = some (i + k) := by
  intro L
  induction L with
  | nil => intro k l i hget; simp at hget
  | cons t rest ih =>
      intro k l i hget hn hbef
      rcases k with _ | k
      · have hl : t = l := by simpa using hget
        subst hl
        rw [List.findIdx?_cons, decide_eq_true hn]
        simp
      · have hnt : n ∉ t := hbef 0 t (Nat.succ_pos _) (by simp)
        rw [List.findIdx?_cons]
        have hd : (decide (n ∈ t)) = false := by
          simp only [decide_eq_false_iff_not]
          exact hnt
        rw [hd]
        simp only [Bool.false_eq_true, if_false]
        have := ih k l (i + 1) (by simpa using hget) hn
          (fun j lj hj hg => hbef (j + 1) lj (Nat.succ_lt_succ hj) (by simpa using hg))
        rw [this]
        congr 1
        omega

theorem candidateNodes_eq_nil (cxs : List (Int × Int)) (s : List Int)
    (h : (((cxs.map Prod.snd).toFinset) \ s.toFinset).card = 0) :
    candidateNodes s cxs = [] := by
  unfold candidateNodes
  have hsub : ∀ p ∈ cxs, p.2 ∉ s → False := by
    intro p hp hps
    have h2 : (p.2 : Int) ∈ (cxs.map Prod.snd).toFinset := by
      rw [List.mem_toFinset]
      exact List.mem_map_of_mem _ hp
    have h3 : (p.2 : Int) ∈ ((cxs.map Prod.snd).toFinset \ s.toFinset) := by
      rw [Finset.mem_sdiff]
      exact ⟨h2, fun hx => hps (List.mem_toFinset.mp hx)⟩
    rw [Finset.card_eq_zero.mp h] at h3
    exact absurd h3 (Finset.not_mem_empty _)
  have : cxs.filter (fun p => decide (p.1 ∈ s ∧ p.2 ∉ s)) = [] := by
    rw [List.filter_eq_nil]
    intro p hp
    simp only [decide_eq_true_eq, not_and]
    intro _ hns
    exact hsub p hp hns
  rw [this]
  rfl

theorem fflAux_measure_lt (cxs : List (Int × Int)) (s t : List Int)
    (hne : t ≠ []) (hsub : ∀ n ∈ t, n ∈ cxs.map Prod.snd ∧ n ∉ s) :
    (((cxs.map Prod.snd).toFinset) \ (s ++ t).toFinset).card <
      (((cxs.map Prod.snd).toFinset) \ s.toFinset).card := by
  apply Finset.card_lt_card
  rw [Finset.ssubset_def]
  constructor
  · intro x hx
    rw [Finset.mem_sdiff] at hx ⊢
    refine ⟨hx.1, ?_⟩
    intro hxs
    apply hx.2
    rw [List.toFinset_append]
    exact Finset.mem_union_left _ hxs
  · intro hsup
    rcases List.exists_mem_of_ne_nil t hne with ⟨n, hn⟩
    have h1 : n ∈ ((cxs.map Prod.snd).toFinset \ s.toFinset) := by
      rw [Finset.mem_sdiff]
      exact ⟨List.mem_toFinset.mpr (hsub n hn).1,
        fun hx => (hsub n hn).2 (List.mem_toFinset.mp hx)⟩
    have h2 := hsup h1
    rw [Finset.mem_sdiff, List.toFinset_append] at h2
    exact h2.2 (Finset.mem_union_right _ (List.mem_toFinset.mpr hn))

theorem fflAux_stable (req : List Int) (cxs : List (Int × Int)) :
    ∀ (f1 : Nat) (s : List Int) (f2 : Nat),
      (((cxs.map Prod.snd).toFinset) \ s.toFinset).card ≤ f1 →
      (((cxs.map Prod.snd).toFinset) \ s.toFinset).card ≤ f2 →
      fflAux req cxs f1 s = fflAux req cxs f2 s := by
  have hnil : ∀ (s : List Int),
      (((cxs.map Prod.snd).toFinset) \ s.toFinset).card = 0 →
      ∀ f, fflAux req cxs f s = [] := by
    intro s hm f
    cases f with
    | zero => rfl
    | succ m =>
        unfold fflAux
        dsimp only
        rw [candidateNodes_eq_nil cxs s hm]
        simp [List.filter_nil]
  have htprop : ∀ (s : List Int),
      ∀ n ∈ (candidateNodes s cxs).filter
        (fun n => decide (n ∈ req ∧ ∀ p ∈ cxs, p.2 = n → p.1 ∈ s)),
        n ∈ cxs.map Prod.snd ∧ n ∉ s := by
    intro s n hn
    have hmc : n ∈ candidateNodes s cxs := List.mem_of_mem_filter hn
    unfold candidateNodes at hmc
    rcases List.mem_map.mp (List.mem_dedup.mp hmc) with ⟨p, hp, hpe⟩
    have hpf := List.of_mem_filter hp
    simp only [decide_eq_true_eq] at hpf
    exact ⟨hpe ▸ List.mem_map_of_mem _ (List.mem_of_mem_filter hp), hpe ▸ hpf.2⟩
  intro f1
  induction f1 with
  | zero =>
      intro s f2 h1 _
      rw [hnil s (Nat.le_zero.mp h1) f2, hnil s (Nat.le_zero.mp h1) 0]
  | succ m ih =>
      intro s f2 h1 h2
      cases f2 with
      | zero =>
          rw [hnil s (Nat.le_zero.mp h2) (m + 1), hnil s (Nat.le_zero.mp h2) 0]
      | succ k =>
          unfold fflAux
          dsimp only
          split
          · rfl
          · next hne =>
            congr 1
            have hlt := fflAux_measure_lt cxs s _ hne (htprop s)
            exact ih (s ++ _) k (by omega) (by omega)

/-- Claim C2, amended: for every genome with duplicate-free node ids,
(a) the layering loop reaches a fixpoint within `|connections| + 1`
iterations — extra fuel never changes the result (termination); (b)
`update_node_layers` gives every input-typed node layer 0; (c) every
node the forward layering emits in layer `k` (0-based) receives the
finite layer `k + 1 ≥ 1`; and (d) every connection whose target is
emitted — its source then lies in the inputs or an earlier layer —
satisfies `layer(source) < layer(target)`.  (Nodes the layering does not
emit, e.g. required nodes fed by a source-less ancestor, keep their
stale layer field; see the counterexample for the unamended claim.) -/
theorem claim_C2_amended (g : Genome) (hnd : g.nodeIds.Nodup) :
    (∀ extra : Nat,
      fflAux (requiredForOutput g.inputIds g.outputIds g.cxKeys) g.cxKeys
        (g.cxKeys.length + 1 + extra) g.inputIds = feedForwardLayers g) ∧
    (∀ n ∈ (updateNodeLayers g).nodes, n.type = NodeType.input → n.layer = 0) ∧
    (∀ n ∈ (updateNodeLayers g).nodes, ∀ k l,
      (feedForwardLayers g).get? k = some l → n.id ∈ l →
      n.layer = k + 1 ∧ 1 ≤ n.layer) ∧
    (∀ p ∈ g.cxKeys, ∀ k l, (feedForwardLayers g).get? k = some l → p.2 ∈ l →
      ∀ na ∈ (updateNodeLayers g).nodes, na.id = p.1 →
      ∀ nb ∈ (updateNodeLayers g).nodes, nb.id = p.2 →
      na.layer < nb.layer) := by
  have hok : LayersOK g.cxKeys g.inputIds (feedForwardLayers g) :=
    fflAux_ok _ _ _ _
  have hnotlayer : ∀ (id : Int), id ∈ g.inputIds →
      ∀ l ∈ feedForwardLayers g, id ∉ l := by
    intro id hid l hl hmem
    rcases mem_exists_get? hl with ⟨k, hk⟩
    have hfact :=
      ((layersOK_get g.cxKeys (feedForwardLayers g) g.inputIds hok k l hk).2 id hmem).1
    exact hfact (List.mem_append.mpr (Or.inl hid))
  have hlayerval : ∀ (m : Node), m ∈ g.nodes → ∀ k l,
      (feedForwardLayers g).get? k = some l → m.id ∈ l →
      (assignLayer (feedForwardLayers g) m).layer = k + 1 := by
    intro m _ k l hk hmem
    have hbef : ∀ j lj, j < k → (feedForwardLayers g).get? j = some lj →
        m.id ∉ lj := by
      intro j lj hj hgj hmemj
      have hup :=
        ((layersOK_get g.cxKeys (feedForwardLayers g) g.inputIds hok k l hk).2
          m.id hmem).1
      exact hup (List.mem_append.mpr (Or.inr (get?_mem_flatten_take hgj hj hmemj)))
    rw [assignLayer_eq]
    dsimp only
    unfold newLayerVal
    rw [findIdx?_mem_some m.id (feedForwardLayers g) k l 0 hk hmem hbef]
    simp
  have hinputval : ∀ (m : Node), m ∈ g.nodes → m.type = NodeType.input →
      (assignLayer (feedForwardLayers g) m).layer = 0 := by
    intro m hm htype
    have hid : m.id ∈ g.inputIds :=
      List.mem_map_of_mem _ (List.mem_filter.mpr ⟨hm, by simp [htype]⟩)
    rw [assignLayer_eq]
    dsimp only
    unfold newLayerVal
    rw [findIdx?_mem_none m.id (feedForwardLayers g) 0
      (fun l hl => hnotlayer m.id hid l hl)]
    simp [htype]
  have hmle : (((g.cxKeys.map Prod.snd).toFinset) \
      g.inputIds.toFinset).card ≤ g.cxKeys.length := by
    calc (((g.cxKeys.map Prod.snd).toFinset) \ g.inputIds.toFinset).card
        ≤ ((g.cxKeys.map Prod.snd).toFinset).card :=
          Finset.card_le_card (Finset.sdiff_subset)
      _ ≤ (g.cxKeys.map Prod.snd).length := List.toFinset_card_le _
      _ = g.cxKeys.length := List.length_map _ _
  refine ⟨?_, ?_, ?_, ?_⟩
  · intro extra
    unfold feedForwardLayers
    apply fflAux_stable
    · omega
    · omega
  · intro n hn htype
    rcases List.mem_map.mp
      (show n ∈ g.nodes.map (assignLayer (feedForwardLayers g)) from hn)
      with ⟨m, hm, rfl⟩
    have htm : m.type = NodeType.input := by
      rw [← assignLayer_type (feedForwardLayers g) m]
      exact htype
    exact hinputval m hm htm
  · intro n hn k l hk hmem
    rcases List.mem_map.mp
      (show n ∈ g.nodes.map (assignLayer (feedForwardLayers g)) from hn)
      with ⟨m, hm, rfl⟩
    rw [assignLayer_id] at hmem
    have hv := hlayerval m hm k l hk hmem
    exact ⟨hv, by omega⟩
  · intro p hp k l hk hmem na hna hnaid nb hnb hnbid
    rcases List.mem_map.mp
      (show na ∈ g.nodes.map (assignLayer (feedForwardLayers g)) from hna)
      with ⟨ma, hma, rfl⟩
    rcases List.mem_map.mp
      (show nb ∈ g.nodes.map (assignLayer (feedForwardLayers g)) from hnb)
      with ⟨mb, hmb, rfl⟩
    rw [assignLayer_id] at hnaid hnbid
    have hnbl : (assignLayer (feedForwardLayers g) mb).layer = k + 1 :=
      hlayerval mb hmb k l hk (by rw [hnbid]; exact hmem)
    have hsrcmem : p.1 ∈ g.inputIds ++ ((feedForwardLayers g).take k).flatten :=
      ((layersOK_get g.cxKeys (feedForwardLayers g) g.inputIds hok k l hk).2
        p.2 hmem).2 p hp rfl
    rcases List.mem_append.mp hsrcmem with hin | htake
    · rcases List.mem_map.mp hin with ⟨mi, hmi, hmiid⟩
      have hmi2 : mi ∈ g.nodes := List.mem_of_mem_filter hmi
      have hmitype := List.of_mem_filter hmi
      simp only [decide_eq_true_eq] at hmitype
      have hmaeq : ma = mi :=
        List.inj_on_of_nodup_map hnd hma hmi2 (by rw [hnaid, hmiid])
      have hz : (assignLayer (feedForwardLayers g) ma).layer = 0 := by
        rw [hmaeq]
        exact hinputval mi hmi2 hmitype
      rw [hz, hnbl]
      omega
    · rcases List.mem_flatten.mp htake with ⟨lj, hljtake, hmemj⟩
      rcases mem_exists_get? hljtake with ⟨j, hgjt⟩
      rw [List.get?_eq_getElem?, List.getElem?_take] at hgjt
      have hjk : j < k ∧ (feedForwardLayers g).get? j = some lj := by
        split at hgjt
        · next hlt => exact ⟨hlt, by rw [List.get?_eq_getElem?]; exact hgjt⟩
        · cases hgjt
      have hnal : (assignLayer (feedForwardLayers g) ma).layer = j + 1 :=
        hlayerval ma hma j lj hjk.2 (by rw [hnaid]; exact hmemj)
      rw [hnal, hnbl]
      omega

theorem claim_C2_amended_witness :
    gW6.nodeIds.Nodup ∧
    ((∀ extra : Nat,
      fflAux (requiredForOutput gW6.inputIds gW6.outputIds gW6.cxKeys)
        gW6.cxKeys (gW6.cxKeys.length + 1 + extra) gW6.inputIds =
        feedForwardLayers gW6) ∧
    (∀ n ∈ (updateNodeLayers gW6).nodes, n.type = NodeType.input → n.layer = 0) ∧
    (∀ n ∈ (updateNodeLayers gW6).nodes, ∀ k l,
      (feedForwardLayers gW6).get? k = some l → n.id ∈ l →
      n.layer = k + 1 ∧ 1 ≤ n.layer) ∧
    (∀ p ∈ gW6.cxKeys, ∀ k l, (feedForwardLayers gW6).get? k = some l →
      p.2 ∈ l →
      ∀ na ∈ (updateNodeLayers gW6).nodes, na.id = p.1 →
      ∀ nb ∈ (updateNodeLayers gW6).nodes, nb.id = p.2 →
      na.layer < nb.layer)) :=
  ⟨by decide, claim_C2_amended gW6 (by decide)⟩

/-- Claim C4: the crossover child carries exactly the fitter parent's
connection keys and node keys (so every key is present in at least one
parent and no key comes only from the less-fit parent), and every gene
attribute — weight and enabled flag for connections, activation and type
for nodes — equals the corresponding attribute of one parent or the
other, never a blend.  `fitterPair` is the fitness comparison with the
tie-break coin; `rc`, `rn` are the per-attribute coins. -/
theorem claim_C4_crossover_spec (a b : Genome) (tie : Bool)
    (rc : (Int × Int) → Bool × Bool) (rn : Int → Bool × Bool) :
    (crossover a b tie rc rn).cxKeys = (fitterPair a b tie).1.cxKeys ∧
    (crossover a b tie rc rn).nodeIds = (fitterPair a b tie).1.nodeIds ∧
    (∀ c ∈ (crossover a b tie rc rn).connections,
      ∃ c1 ∈ (fitterPair a b tie).1.connections, c.key = c1.key ∧
        (c.weight = c1.weight ∨ ∃ c2 ∈ (fitterPair a b tie).2.connections,
          c2.key = c.key ∧ c.weight = c2.weight) ∧
        (c.enabled = c1.enabled ∨ ∃ c2 ∈ (fitterPair a b tie).2.connections,
          c2.key = c.key ∧ c.enabled = c2.enabled)) ∧
    (∀ n ∈ (crossover a b tie rc rn).nodes,
      ∃ n1 ∈ (fitterPair a b tie).1.nodes, n.id = n1.id ∧
        (n.activation = n1.activation ∨ ∃ n2 ∈ (fitterPair a b tie).2.nodes,
          n2.id = n.id ∧ n.activation = n2.activation) ∧
        (n.type = n1.type ∨ ∃ n2 ∈ (fitterPair a b tie).2.nodes,
          n2.id = n.id ∧ n.type = n2.type)) := by
  unfold crossover
  dsimp only
  set p := fitterPair a b tie with hp
  set fc : Connection → Connection := fun c1 =>
    match p.2.connections.find? (fun c => c.key = c1.key) with
    | none => c1.copyGene
    | some c2 => c1.crossoverGene c2 (rc c1.key).1 (rc c1.key).2 with hfc
  set fn : Node → Node := fun n1 =>
    match p.2.nodes.find? (fun n => n.id = n1.id) with
    | none => n1.copyGene
    | some n2 => n1.crossoverGene n2 (rn n1.id).1 (rn n1.id).2 with hfn
  have hfck : ∀ c1, (fc c1).key = c1.key := by
    intro c1
    rw [hfc]
    dsimp only
    split <;> rfl
  have hfni : ∀ n1, (fn n1).id = n1.id := by
    intro n1
    rw [hfn]
    dsimp only
    split <;> rfl
  refine ⟨?_, ?_, ?_, ?_⟩
  · rw [updateNodeLayers_cxKeys]
    unfold Genome.cxKeys
    dsimp only
    rw [List.map_map]
    have : ((fun (c : Connection) => c.key) ∘ fc) = fun c => c.key := by
      funext c1
      exact hfck c1
    rw [this]
  · rw [updateNodeLayers_nodeIds]
    unfold Genome.nodeIds
    dsimp only
    rw [List.map_map]
    have : ((fun (n : Node) => n.id) ∘ fn) = fun n => n.id := by
      funext n1
      exact hfni n1
    rw [this]
  · intro c hc
    rw [updateNodeLayers_connections] at hc
    dsimp only at hc
    rcases List.mem_map.mp hc with ⟨c1, hc1, hceq⟩
    refine ⟨c1, hc1, ?_⟩
    rw [hfc] at hceq
    dsimp only at hceq
    rcases hfind : p.2.connections.find? (fun c => c.key = c1.key) with _ | c2
    · rw [hfind] at hceq
      dsimp only at hceq
      subst hceq
      exact ⟨rfl, Or.inl rfl, Or.inl rfl⟩
    · rw [hfind] at hceq
      dsimp only at hceq
      subst hceq
      have hc2mem := List.mem_of_find?_eq_some hfind
      have hc2key := List.find?_some hfind
      simp only [decide_eq_true_eq] at hc2key
      refine ⟨rfl, ?_, ?_⟩
      · rcases hr : (rc c1.key).1 with _ | _
        · refine Or.inr ⟨c2, hc2mem, hc2key, ?_⟩
          unfold Connection.crossoverGene
          simp
        · refine Or.inl ?_
          unfold Connection.crossoverGene
          simp
      · rcases hr : (rc c1.key).2 with _ | _
        · refine Or.inr ⟨c2, hc2mem, hc2key, ?_⟩
          unfold Connection.crossoverGene
          simp
        · refine Or.inl ?_
          unfold Connection.crossoverGene
          simp
  · intro n hn
    have hn2 : n ∈ (List.map fn p.1.nodes).map
        (assignLayer (feedForwardLayers
          { nodes := List.map fn p.1.nodes,
            connections := List.map fc p.1.connections })) := hn
    rcases List.mem_map.mp hn2 with ⟨n', hn', hneq⟩
    rcases List.mem_map.mp hn' with ⟨n1, hn1, hn1eq⟩
    have hid : n.id = n'.id := by rw [← hneq, assignLayer_id]
    have hact : n.activation = n'.activation := by rw [← hneq, assignLayer_activation]
    have htyp : n.type = n'.type := by rw [← hneq, assignLayer_type]
    refine ⟨n1, hn1, ?_⟩
    rw [← hn1eq, hfn] at hid hact htyp
    dsimp only at hid hact htyp
    rcases hfind : p.2.nodes.find? (fun m => m.id = n1.id) with _ | n2
    · rw [hfind] at hid hact htyp
      dsimp only at hid hact htyp
      unfold Node.copyGene at hid hact htyp
      exact ⟨hid, Or.inl hact, Or.inl htyp⟩
    · rw [hfind] at hid hact htyp
      dsimp only at hid hact htyp
      have hn2mem := List.mem_of_find?_eq_some hfind
      have hn2id := List.find?_some hfind
      simp only [decide_eq_true_eq] at hn2id
      unfold Node.crossoverGene at hid hact htyp
      dsimp only at hid hact htyp
      refine ⟨hid, ?_, ?_⟩
      · rcases hr : (rn n1.id).1 with _ | _
        · rw [hr] at hact
          simp at hact
          exact Or.inr ⟨n2, hn2mem, by rw [hn2id, hid], hact⟩
        · rw [hr] at hact
          simp at hact
          exact Or.inl hact
      · rcases hr : (rn n1.id).2 with _ | _
        · rw [hr] at htyp
          simp at htyp
          exact Or.inr ⟨n2, hn2mem, by rw [hn2id, hid], htyp⟩
        · rw [hr] at htyp
          simp at htyp
          exact Or.inl htyp

theorem updateState_ne {β : Type} (σ : Int → β) (n : Int) (v : β) (a : Int)
    (h : a ≠ n) : updateState σ n v a = σ a := by
  unfold updateState
  simp [h]

theorem updateState_self {β : Type} (σ : Int → β) (n : Int) (v : β) :
    updateState σ n v n = v := by
  unfold updateState
  simp

theorem foldl_update_frame {β : Type} (F : (Int → β) → Int → β) :
    ∀ (t : List Int) (σ : Int → β) (id : Int), id ∉ t →
      (t.foldl (fun σ n => updateState σ n (F σ n)) σ) id = σ id := by
  intro t
  induction t with
  | nil => intro σ id _; rfl
  | cons a t ih =>
      intro σ id hid
      rw [List.foldl_cons]
      rw [ih _ id (fun h => hid (List.mem_cons_of_mem _ h))]
      exact updateState_ne σ a _ id (fun h => hid (h ▸ List.mem_cons_self a t))

theorem foldl_update_frame2 {β : Type} (F : (Int → β) → Nat → Int → β) :
    ∀ (l : List (Nat × Int)) (σ : Int → β) (id : Int), (∀ p ∈ l, p.2 ≠ id) →
      (l.foldl (fun σ p => updateState σ p.2 (F σ p.1 p.2)) σ) id = σ id := by
  intro l
  induction l with
  | nil => intro σ id _; rfl
  | cons q l ih =>
      intro σ id hid
      rw [List.foldl_cons]
      rw [ih _ id (fun p hp => hid p (List.mem_cons_of_mem _ hp))]
      exact updateState_ne σ q.2 _ id
        (fun h => hid q (List.mem_cons_self q l) h.symm)

theorem foldl_update_get {β : Type} (F : (Int → β) → Int → β) (s : List Int)
    (id : Int)
    (hcongr : ∀ σ1 σ2, (∀ a ∈ s, σ1 a = σ2 a) → F σ1 id = F σ2 id) :
    ∀ (t : List Int) (σ : Int → β) (k : Nat),
      t.Nodup → t.get? k = some id → (∀ n ∈ t, n ∉ s) →
      (t.foldl (fun σ n => updateState σ n (F σ n)) σ) id = F σ id := by
  intro t
  induction t with
  | nil => intro σ k _ hk; simp at hk
  | cons a t ih =>
      intro σ k hnd hk hns
      rw [List.foldl_cons]
      rcases k with _ | k
      · have ha : a = id := by simpa using hk
        subst ha
        rw [foldl_update_frame F t _ a (by simp at hnd; exact hnd.1)]
        exact updateState_self σ a _
      · have hk' : t.get? k = some id := by simpa using hk
        have hid_t : id ∈ t := List.get?_mem hk'
        have hane : a ≠ id := by
          intro h
          subst h
          simp at hnd
          exact hnd.1 hid_t
        rw [ih _ k (by simp at hnd; exact hnd.2) hk'
          (fun n hn => hns n (List.mem_cons_of_mem _ hn))]
        apply hcongr
        intro b hb
        exact updateState_ne σ a _ b
          (fun h => (hns a (List.mem_cons_self a t)) (h ▸ hb))

theorem foldl_update_get2 {β : Type} (F : (Int → β) → Nat → Int → β)
    (s : List Int) (id : Int)
    (hcongr : ∀ σ1 σ2 j, (∀ a ∈ s, σ1 a = σ2 a) → F σ1 j id = F σ2 j id) :
    ∀ (t : List Int) (i : Nat) (σ : Int → β) (k : Nat),
      t.Nodup → t.get? k = some id → (∀ n ∈ t, n ∉ s) →
      ((t.enumFrom i).foldl (fun σ p => updateState σ p.2 (F σ p.1 p.2)) σ) id =
        F σ (i + k) id := by
  intro t
  induction t with
  | nil => intro i σ k _ hk; simp at hk
  | cons a t ih =>
      intro i σ k hnd hk hns
      rw [show (a :: t).enumFrom i = (i, a) :: t.enumFrom (i + 1) from rfl]
      rw [List.foldl_cons]
      rcases k with _ | k
      · have ha : a = id := by simpa using hk
        subst ha
        have hnott : ∀ p ∈ t.enumFrom (i + 1), p.2 ≠ a := by
          intro p hp
          rcases List.mem_enumFrom hp with ⟨hle, hlt, heq⟩
          have hidx : p.1 - (i + 1) < t.length := by omega
          have hmem : p.2 ∈ t := by
            rw [heq]
            exact List.getElem_mem hidx
          intro h
          simp at hnd
          exact hnd.1 (h ▸ hmem)
        rw [foldl_update_frame2 F _ _ a hnott]
        rw [Nat.add_zero]
        exact updateState_self σ a _
      · have hk' : t.get? k = some id := by simpa using hk
        have hid_t : id ∈ t := List.get?_mem hk'
        have hane : a ≠ id := by
          intro h
          subst h
          simp at hnd
          exact hnd.1 hid_t
        rw [ih (i + 1) _ k (by simp at hnd; exact hnd.2) hk'
          (fun n hn => hns n (List.mem_cons_of_mem _ hn))]
        rw [show i + 1 + k = i + (k + 1) by omega]
        apply hcongr
        intro b hb
        exact updateState_ne σ a _ b
          (fun h => (hns a (List.mem_cons_self a t)) (h ▸ hb))

theorem incoming_input_nil (g : Genome)
    (h3 : ∀ c ∈ g.connections, c.enabled = true → ∀ n ∈ g.nodes,
      n.type = NodeType.input → c.key.2 ≠ n.id)
    (n : Node) (hn : n ∈ g.nodes) (ht : n.type = NodeType.input) :
    g.incoming n.id = [] := by
  unfold Genome.incoming
  rw [List.filter_eq_nil]
  intro c hc
  simp only [decide_eq_true_eq, not_and]
  intro hen
  exact h3 c hc hen n hn ht

theorem find?_id_nodup :
    ∀ (l : List Node), (l.map (fun m => m.id)).Nodup →
      ∀ n ∈ l, l.find? (fun m => m.id = n.id) = some n := by
  intro l
  induction l with
  | nil => intro _ n h; simp at h
  | cons b t ih =>
      intro hnd n hn
      rw [List.map_cons, List.nodup_cons] at hnd
      by_cases hb : b.id = n.id
      · rw [List.find?_cons_of_pos _ (by simp [hb])]
        rcases List.mem_cons.mp hn with h | h
        · rw [h]
        · exact absurd (hb ▸ List.mem_map_of_mem (fun m => m.id) h) hnd.1
      · rw [List.find?_cons_of_neg _ (by simp [hb])]
        have hnt : n ∈ t := by
          rcases List.mem_cons.mp hn with h | h
          · exact absurd (by rw [h]) hb
          · exact h
        exact ih hnd.2 n hnt

theorem findIdx?_id_nodup :
    ∀ (l : List Node) (i k : Nat) (n : Node),
      (l.map (fun m => m.id)).Nodup → l.get? k = some n →
      l.findIdx? (fun m => m.id = n.id) i = some (i + k) := by
  intro l
  induction l with
  | nil => intro i k n _ hk; simp at hk
  | cons b t ih =>
      intro i k n hnd hk
      rw [List.map_cons, List.nodup_cons] at hnd
      rw [List.findIdx?_cons]
      rcases k with _ | k
      · have hb : b = n := by simpa using hk
        subst hb
        simp
      · have hk' : t.get? k = some n := by simpa using hk
        have hbn : ¬(b.id = n.id) := by
          intro h
          exact hnd.1 (h ▸ List.mem_map_of_mem _ (List.get?_mem hk'))
        rw [show (decide (b.id = n.id)) = false by simp [hbn]]
        simp only [Bool.false_eq_true, if_false]
        rw [ih (i + 1) k n hnd.2 hk']
        congr 1
        omega

theorem inputVec_length (cfg : Config) (sq : ℚ → ℚ) (x y : ℚ) :
    (inputVec cfg sq x y).length = cfg.nInputs := by
  unfold inputVec Config.nInputs
  rcases cfg.useRadialDistance <;> rcases cfg.useInputBias <;> simp

theorem inputIds_nodup (g : Genome) (h1 : g.nodeIds.Nodup) :
    g.inputIds.Nodup := by
  unfold Genome.inputIds Genome.inputNodes
  unfold Genome.nodeIds at h1
  exact ((List.filter_sublist g.nodes).map (fun n => n.id)).nodup h1

theorem rawInputAt_get (g : Genome) (cfg : Config) (sq : ℚ → ℚ) (x y : ℚ)
    (n : Node) (k : Nat) (hnd : g.inputIds.Nodup)
    (hget : g.inputNodes.get? k = some n) (hk : k < cfg.nInputs) :
    rawInputAt g cfg sq x y n.id =
      some (((inputVec cfg sq x y).get? k).getD 0) := by
  have hlen : k < (inputVec cfg sq x y).length := by
    rw [inputVec_length]
    exact hk
  obtain ⟨v, hv⟩ : ∃ v, (inputVec cfg sq x y).get? k = some v := by
    rcases hq : (inputVec cfg sq x y).get? k with _ | v
    · rw [List.get?_eq_none] at hq
      omega
    · exact ⟨v, rfl⟩
  unfold rawInputAt
  rw [show g.inputNodes.findIdx? (fun m => m.id = n.id) = some k from
    by rw [findIdx?_id_nodup g.inputNodes 0 k n hnd hget]; simp]
  show (inputVec cfg sq x y).get? k = _
  rw [hv]
  rfl

theorem serialNodeVal_input (g : Genome) (cfg : Config) (sq : ℚ → ℚ)
    (x y : ℚ) (σ : Int → Option ℚ) (n : Node) (k : Nat)
    (h1 : g.nodeIds.Nodup)
    (h3 : ∀ c ∈ g.connections, c.enabled = true → ∀ m ∈ g.nodes,
      m.type = NodeType.input → c.key.2 ≠ m.id)
    (hget : g.inputNodes.get? k = some n) (hk : k < cfg.nInputs) :
    serialNodeVal g cfg sq x y σ n.id =
      some (n.activation.eval (((inputVec cfg sq x y).get? k).getD 0)) := by
  have hmemIn : n ∈ g.inputNodes := List.get?_mem hget
  have hmem : n ∈ g.nodes := List.mem_of_mem_filter hmemIn
  have htype : n.type = NodeType.input := by
    have := List.of_mem_filter hmemIn
    simpa using this
  unfold serialNodeVal
  rw [show g.findNode n.id = some n from find?_id_nodup g.nodes h1 n hmem]
  dsimp only
  rw [incoming_input_nil g h3 n hmem htype]
  rw [if_pos htype]
  rw [rawInputAt_get g cfg sq x y n k (inputIds_nodup g h1) hget hk]
  rfl

theorem parallelNodeVal_input (g : Genome) (cfg : Config) (sq : ℚ → ℚ)
    (σp : Int → Option (Nat → Nat → ℚ)) (n : Node) (k : Nat)
    (h1 : g.nodeIds.Nodup)
    (h3 : ∀ c ∈ g.connections, c.enabled = true → ∀ m ∈ g.nodes,
      m.type = NodeType.input → c.key.2 ≠ m.id)
    (hget : g.inputNodes.get? k = some n) (hk : k < cfg.nInputs) :
    parallelNodeVal g cfg sq σp k n.id =
      some (fun r c => n.activation.eval
        (((inputVec cfg sq (linspaceQ cfg.resH r) (linspaceQ cfg.resW c)).get?
          k).getD 0)) := by
  have hmemIn : n ∈ g.inputNodes := List.get?_mem hget
  have hmem : n ∈ g.nodes := List.mem_of_mem_filter hmemIn
  have htype : n.type = NodeType.input := by
    have := List.of_mem_filter hmemIn
    simpa using this
  unfold parallelNodeVal
  rw [show g.findNode n.id = some n from find?_id_nodup g.nodes h1 n hmem]
  dsimp only
  rw [incoming_input_nil g h3 n hmem htype]
  rw [if_pos htype]
  unfold pixelChannel
  rw [if_pos hk]
  rfl

theorem foldl_congr_mem {α β : Type} :
    ∀ (l : List β) (f f' : α → β → α) (a : α),
      (∀ acc, ∀ b ∈ l, f acc b = f' acc b) →
      l.foldl f a = l.foldl f' a := by
  intro l
  induction l with
  | nil => intro f f' a _; rfl
  | cons b t ih =>
      intro f f' a h
      rw [List.foldl_cons, List.foldl_cons, h a b (List.mem_cons_self b t)]
      exact ih f f' _ (fun acc x hx => h acc x (List.mem_cons_of_mem _ hx))

theorem serialNodeVal_congr (g : Genome) (cfg : Config) (sq : ℚ → ℚ)
    (x y : ℚ) (σ1 σ2 : Int → Option ℚ) (id : Int)
    (h : ∀ c ∈ g.incoming id, σ1 c.key.1 = σ2 c.key.1) :
    serialNodeVal g cfg sq x y σ1 id = serialNodeVal g cfg sq x y σ2 id := by
  unfold serialNodeVal
  rcases hf : g.findNode id with _ | n
  · rfl
  · dsimp only
    congr 1
    refine foldl_congr_mem (g.incoming id) _ _ _ ?_
    intro acc c hc
    dsimp only
    rw [h c hc]

theorem parallelNodeVal_congr (g : Genome) (cfg : Config) (sq : ℚ → ℚ)
    (σ1 σ2 : Int → Option (Nat → Nat → ℚ)) (j : Nat) (id : Int)
    (h : ∀ c ∈ g.incoming id, σ1 c.key.1 = σ2 c.key.1) :
    parallelNodeVal g cfg sq σ1 j id = parallelNodeVal g cfg sq σ2 j id := by
  unfold parallelNodeVal
  rcases hf : g.findNode id with _ | n
  · rfl
  · dsimp only
    congr 1
    refine foldl_congr_mem (g.incoming id) _ _ _ ?_
    intro acc c hc
    dsimp only
    rw [h c hc]

theorem nodeVal_corr (g : Genome) (cfg : Config) (sq : ℚ → ℚ)
    (σp : Int → Option (Nat → Nat → ℚ)) (σs : Nat → Nat → Int → Option ℚ)
    (id : Int) (j : Nat) (n : Node)
    (hfn : g.findNode id = some n) (hni : ¬ n.type = NodeType.input)
    (hsrc : ∀ c ∈ g.incoming id, ∃ m, g.findNode c.key.1 = some m)
    (hrel : ∀ c ∈ g.incoming id, ∃ gr, σp c.key.1 = some gr ∧
      ∀ r cc, σs r cc c.key.1 = some (gr r cc)) :
    ∃ gr, parallelNodeVal g cfg sq σp j id = some gr ∧
      ∀ r cc x y, serialNodeVal g cfg sq x y (σs r cc) id = some (gr r cc) := by
  have key : ∀ (l : List Connection),
      (∀ c ∈ l, ∃ m, g.findNode c.key.1 = some m) →
      (∀ c ∈ l, ∃ gr, σp c.key.1 = some gr ∧
        ∀ r cc, σs r cc c.key.1 = some (gr r cc)) →
      ∀ (A : Nat → Nat → ℚ),
      ∃ B, (l.foldl (fun acc c => do
            let a ← acc
            let _ ← g.findNode c.key.1
            let v ← σp c.key.1
            pure (fun r cc => a r cc + v r cc * c.weight)) (some A)) = some B ∧
        ∀ r cc, (l.foldl (fun acc c => do
            let a ← acc
            let _ ← g.findNode c.key.1
            let v ← σs r cc c.key.1
            pure (a + v * c.weight)) (some (A r cc))) = some (B r cc) := by
    intro l
    induction l with
    | nil => exact fun _ _ A => ⟨A, rfl, fun r cc => rfl⟩
    | cons c l ih =>
        intro hsrc' hrel' A
        obtain ⟨m, hm⟩ := hsrc' c (List.mem_cons_self c l)
        obtain ⟨gr, hgr, hfam⟩ := hrel' c (List.mem_cons_self c l)
        obtain ⟨B, hB, hBs⟩ := ih
          (fun d hd => hsrc' d (List.mem_cons_of_mem _ hd))
          (fun d hd => hrel' d (List.mem_cons_of_mem _ hd))
          (fun r cc => A r cc + gr r cc * c.weight)
        refine ⟨B, ?_, ?_⟩
        · have hstep : (do
              let a ← some A
              let _ ← g.findNode c.key.1
              let v ← σp c.key.1
              pure (fun r cc => a r cc + v r cc * c.weight) :
                Option (Nat → Nat → ℚ)) =
              some (fun r cc => A r cc + gr r cc * c.weight) := by
            rw [hm, hgr]
            rfl
          exact (congrArg (fun z => List.foldl (fun acc c => do
              let a ← acc
              let _ ← g.findNode c.key.1
              let v ← σp c.key.1
              pure (fun r cc => a r cc + v r cc * c.weight)) z l)
            hstep).trans hB
        · intro r cc
          have hstep : (do
              let a ← some (A r cc)
              let _ ← g.findNode c.key.1
              let v ← σs r cc c.key.1
              pure (a + v * c.weight) : Option ℚ) =
              some (A r cc + gr r cc * c.weight) := by
            rw [hm, hfam r cc]
            rfl
          exact (congrArg (fun z => List.foldl (fun acc c => do
              let a ← acc
              let _ ← g.findNode c.key.1
              let v ← σs r cc c.key.1
              pure (a + v * c.weight)) z l) hstep).trans (hBs r cc)
  obtain ⟨B, hB, hBs⟩ := key (g.incoming id) hsrc hrel (fun _ _ => 0)
  refine ⟨fun r cc => n.activation.eval (B r cc), ?_, ?_⟩
  · unfold parallelNodeVal
    rw [hfn]
    dsimp only
    rw [if_neg hni]
    exact congrArg (Option.map (fun gr r cc => n.activation.eval (gr r cc))) hB
  · intro r cc x y
    unfold serialNodeVal
    rw [hfn]
    dsimp only
    rw [if_neg hni]
    exact congrArg (Option.map n.activation.eval) (hBs r cc)

theorem findNode_of_id_mem (g : Genome) (h1 : g.nodeIds.Nodup) (id : Int)
    (hid : id ∈ g.nodeIds) :
    ∃ n, g.findNode id = some n ∧ n ∈ g.nodes ∧ n.id = id := by
  obtain ⟨n, hn, hnid⟩ := List.mem_map.mp hid
  subst hnid
  exact ⟨n, find?_id_nodup g.nodes h1 n hn, hn, rfl⟩

theorem nonInput_of_not_mem (g : Genome) (n : Node) (hn : n ∈ g.nodes)
    (hni : n.id ∉ g.inputIds) : ¬ n.type = NodeType.input := by
  intro ht
  exact hni (List.mem_map_of_mem _ (List.mem_filter.mpr ⟨hn, by simp [ht]⟩))

theorem snd_mem_enumFrom {α : Type} :
    ∀ (l : List α) (i : Nat) (p : Nat × α), p ∈ l.enumFrom i → p.2 ∈ l := by
  intro l
  induction l with
  | nil => intro i p hp; exact absurd hp (List.not_mem_nil p)
  | cons a t ih =>
      intro i p hp
      have hp' : p ∈ (i, a) :: t.enumFrom (i + 1) := hp
      rcases List.mem_cons.mp hp' with h | h
      · subst h
        exact List.mem_cons_self a t
      · exact List.mem_cons_of_mem _ (ih (i + 1) p h)

theorem fflAux_mem_targets (req : List Int) (cxs : List (Int × Int)) :
    ∀ (fuel : Nat) (s : List Int) (l : List Int) (n : Int),
      l ∈ fflAux req cxs fuel s → n ∈ l → ∃ p ∈ cxs, p.2 = n := by
  intro fuel
  induction fuel with
  | zero => intro s l n hl _; exact absurd hl (List.not_mem_nil l)
  | succ f ih =>
      intro s l n hl hn
      unfold fflAux at hl
      dsimp only at hl
      split at hl
      · exact absurd hl (List.not_mem_nil l)
      · rcases List.mem_cons.mp hl with h | h
        · subst h
          have hc : n ∈ candidateNodes s cxs := List.mem_of_mem_filter hn
          unfold candidateNodes at hc
          rw [List.mem_dedup] at hc
          obtain ⟨p, hp, hpn⟩ := List.mem_map.mp hc
          exact ⟨p, List.mem_of_mem_filter hp, hpn⟩
        · exact ih _ l n h hn

theorem layersOK_foldOK (g : Genome) :
    ∀ (L : List (List Int)) (s : List Int),
      LayersOK g.cxKeys s L → FoldOK g s L := by
  intro L
  induction L with
  | nil => intro s _; trivial
  | cons t rest ih =>
      intro s hok
      have hok' : (t ≠ [] ∧ t.Nodup ∧ ∀ n ∈ t, n ∉ s ∧
          ∀ p ∈ g.cxKeys, p.2 = n → p.1 ∈ s) ∧
          LayersOK g.cxKeys (s ++ t) rest := hok
      obtain ⟨⟨_, hnd, hmem⟩, hrest⟩ := hok'
      refine ⟨⟨hnd, ?_⟩, ih _ hrest⟩
      intro n hn
      obtain ⟨hns, hsrc⟩ := hmem n hn
      refine ⟨hns, ?_⟩
      intro c hc
      have hc2 : c ∈ g.connections := List.mem_of_mem_filter hc
      have hck := List.of_mem_filter hc
      simp only [decide_eq_true_eq] at hck
      exact hsrc c.key (List.mem_map_of_mem _ hc2) hck.2

theorem pixelRel_inputLayer (g : Genome) (cfg : Config) (sq : ℚ → ℚ)
    (h1 : g.nodeIds.Nodup)
    (h3 : ∀ c ∈ g.connections, c.enabled = true → ∀ m ∈ g.nodes,
      m.type = NodeType.input → c.key.2 ≠ m.id)
    (h9 : g.inputNodes.length ≤ cfg.nInputs)
    (σp : Int → Option (Nat → Nat → ℚ)) (σs : Nat → Nat → Int → Option ℚ) :
    PixelRel (parallelLayerStep g cfg sq σp g.inputIds)
      (fun r c => serialLayerStep g cfg sq (linspaceQ cfg.resH r)
        (linspaceQ cfg.resW c) (σs r c) g.inputIds) g.inputIds := by
  intro id hid
  obtain ⟨n, hnmem, hnid⟩ := List.mem_map.mp hid
  obtain ⟨k, hk⟩ := mem_exists_get? hnmem
  have hklt : k < g.inputNodes.length := by
    by_contra hge
    rw [List.get?_eq_none.mpr (Nat.le_of_not_lt hge)] at hk
    exact Option.noConfusion hk
  have hkin : k < cfg.nInputs := lt_of_lt_of_le hklt h9
  have hidk : g.inputIds.get? k = some id := by
    unfold Genome.inputIds
    rw [List.get?_map, hk]
    exact congrArg some hnid
  have hndIn : g.inputIds.Nodup := inputIds_nodup g h1
  have hnodes : n ∈ g.nodes := List.mem_of_mem_filter hnmem
  have htype : n.type = NodeType.input := by
    have := List.of_mem_filter hnmem
    simpa using this
  have hinc : g.incoming id = [] := by
    rw [← hnid]
    exact incoming_input_nil g h3 n hnodes htype
  refine ⟨fun r c => n.activation.eval
      (((inputVec cfg sq (linspaceQ cfg.resH r) (linspaceQ cfg.resW c)).get?
        k).getD 0), ?_, ?_⟩
  · exact (foldl_update_get2 (fun σ j id' => parallelNodeVal g cfg sq σ j id')
      [] id
      (fun σ1 σ2 j _ => parallelNodeVal_congr g cfg sq σ1 σ2 j id
        (fun c hc => absurd (hinc ▸ hc) (List.not_mem_nil c)))
      g.inputIds 0 σp k hndIn hidk (fun m _ => List.not_mem_nil m)).trans
      (by rw [Nat.zero_add, ← hnid]
          exact parallelNodeVal_input g cfg sq σp n k h1 h3 hk hkin)
  · intro r c
    exact (foldl_update_get (fun σ id' => serialNodeVal g cfg sq
        (linspaceQ cfg.resH r) (linspaceQ cfg.resW c) σ id') [] id
      (fun σ1 σ2 _ => serialNodeVal_congr g cfg sq
        (linspaceQ cfg.resH r) (linspaceQ cfg.resW c) σ1 σ2 id
        (fun cx hc => absurd (hinc ▸ hc) (List.not_mem_nil cx)))
      g.inputIds (σs r c) k hndIn hidk (fun m _ => List.not_mem_nil m)).trans
      (by rw [← hnid]
          exact serialNodeVal_input g cfg sq (linspaceQ cfg.resH r)
            (linspaceQ cfg.resW c) (σs r c) n k h1 h3 hk hkin)

theorem pixelRel_step (g : Genome) (cfg : Config) (sq : ℚ → ℚ)
    (h1 : g.nodeIds.Nodup)
    (h2 : ∀ c ∈ g.connections, c.key.1 ∈ g.nodeIds ∧ c.key.2 ∈ g.nodeIds)
    (s t : List Int) (σp : Int → Option (Nat → Nat → ℚ))
    (σs : Nat → Nat → Int → Option ℚ)
    (hnd : t.Nodup)
    (hmem : ∀ n ∈ t, n ∉ s ∧ ∀ c ∈ g.incoming n, c.key.1 ∈ s)
    (hids : ∀ n ∈ t, n ∈ g.nodeIds)
    (hsub : ∀ n ∈ g.inputIds, n ∈ s)
    (hrel : PixelRel σp σs s) :
    PixelRel (parallelLayerStep g cfg sq σp t)
      (fun r c => serialLayerStep g cfg sq (linspaceQ cfg.resH r)
        (linspaceQ cfg.resW c) (σs r c) t) (s ++ t) := by
  intro id hid
  rcases List.mem_append.mp hid with hs | ht
  · obtain ⟨gr, hgr, hfam⟩ := hrel id hs
    refine ⟨gr, ?_, ?_⟩
    · exact (foldl_update_frame2
        (fun σ j id' => parallelNodeVal g cfg sq σ j id') (t.enumFrom 0) σp id
        (fun p hp hpid => (hmem p.2 (snd_mem_enumFrom t 0 p hp)).1
          (by rw [hpid]; exact hs))).trans hgr
    · intro r c
      exact (foldl_update_frame (fun σ id' => serialNodeVal g cfg sq
          (linspaceQ cfg.resH r) (linspaceQ cfg.resW c) σ id') t (σs r c) id
        (fun hidt => (hmem id hidt).1 hs)).trans (hfam r c)
  · obtain ⟨k, hk⟩ := mem_exists_get? ht
    obtain ⟨n, hfn, hnmem, hnid⟩ := findNode_of_id_mem g h1 id (hids id ht)
    have hnotin : ¬ n.type = NodeType.input := by
      refine nonInput_of_not_mem g n hnmem ?_
      rw [hnid]
      intro hmemIn
      exact (hmem id ht).1 (hsub id hmemIn)
    obtain ⟨gr, hgrp, hgrs⟩ := nodeVal_corr g cfg sq σp σs id k n hfn hnotin
      (fun c hc => by
        obtain ⟨m, hm, _, _⟩ := findNode_of_id_mem g h1 c.key.1
          (h2 c (List.mem_of_mem_filter hc)).1
        exact ⟨m, hm⟩)
      (fun c hc => hrel c.key.1 ((hmem id ht).2 c hc))
    refine ⟨gr, ?_, ?_⟩
    · exact (foldl_update_get2
        (fun σ j id' => parallelNodeVal g cfg sq σ j id') s id
        (fun σ1 σ2 j hag => parallelNodeVal_congr g cfg sq σ1 σ2 j id
          (fun c hc => hag c.key.1 ((hmem id ht).2 c hc)))
        t 0 σp k hnd hk (fun m hm => (hmem m hm).1)).trans
        (by rw [Nat.zero_add]; exact hgrp)
    · intro r c
      exact (foldl_update_get (fun σ id' => serialNodeVal g cfg sq
          (linspaceQ cfg.resH r) (linspaceQ cfg.resW c) σ id') s id
        (fun σ1 σ2 hag => serialNodeVal_congr g cfg sq
          (linspaceQ cfg.resH r) (linspaceQ cfg.resW c) σ1 σ2 id
          (fun c hc => hag c.key.1 ((hmem id ht).2 c hc)))
        t (σs r c) k hnd hk (fun m hm => (hmem m hm).1)).trans
        (hgrs r c (linspaceQ cfg.resH r) (linspaceQ cfg.resW c))

theorem pixelRel_layers (g : Genome) (cfg : Config) (sq : ℚ → ℚ)
    (h1 : g.nodeIds.Nodup)
    (h2 : ∀ c ∈ g.connections, c.key.1 ∈ g.nodeIds ∧ c.key.2 ∈ g.nodeIds) :
    ∀ (L : List (List Int)) (s : List Int)
      (σp : Int → Option (Nat → Nat → ℚ)) (σs : Nat → Nat → Int → Option ℚ),
      FoldOK g s L → (∀ l ∈ L, ∀ n ∈ l, n ∈ g.nodeIds) →
      (∀ n ∈ g.inputIds, n ∈ s) → PixelRel σp σs s →
      PixelRel (L.foldl (parallelLayerStep g cfg sq) σp)
        (fun r c => L.foldl (serialLayerStep g cfg sq (linspaceQ cfg.resH r)
          (linspaceQ cfg.resW c)) (σs r c)) (s ++ L.flatten) := by
  intro L
  induction L with
  | nil =>
      intro s σp σs _ _ _ hrel id hid
      rw [List.flatten_nil, List.append_nil] at hid
      exact hrel id hid
  | cons t rest ih =>
      intro s σp σs hok hids hsub hrel
      have hok' : (t.Nodup ∧ ∀ n ∈ t, n ∉ s ∧ ∀ c ∈ g.incoming n,
          c.key.1 ∈ s) ∧ FoldOK g (s ++ t) rest := hok
      obtain ⟨⟨hnd, hmem⟩, hrest⟩ := hok'
      have hstep := pixelRel_step g cfg sq h1 h2 s t σp σs hnd hmem
        (hids t (List.mem_cons_self t rest)) hsub hrel
      have hres := ih (s ++ t) (parallelLayerStep g cfg sq σp t)
        (fun r c => serialLayerStep g cfg sq (linspaceQ cfg.resH r)
          (linspaceQ cfg.resW c) (σs r c) t) hrest
        (fun l hl => hids l (List.mem_cons_of_mem _ hl))
        (fun n hn => List.mem_append_left t (hsub n hn))
        hstep
      intro id hid
      have hid' : id ∈ (s ++ t) ++ rest.flatten := by
        rw [List.append_assoc]
        exact hid
      exact hres id hid'

theorem pixelRel_final (g : Genome) (cfg : Config) (sq : ℚ → ℚ)
    (h1 : g.nodeIds.Nodup)
    (h2 : ∀ c ∈ g.connections, c.key.1 ∈ g.nodeIds ∧ c.key.2 ∈ g.nodeIds)
    (h3 : ∀ c ∈ g.connections, c.enabled = true → ∀ m ∈ g.nodes,
      m.type = NodeType.input → c.key.2 ≠ m.id)
    (h9 : g.inputNodes.length ≤ cfg.nInputs)
    (σs0 : Nat → Nat → Int → Option ℚ) :
    PixelRel (parallelFinalState g cfg sq)
      (fun r c => serialFeedForward g cfg sq (linspaceQ cfg.resH r)
        (linspaceQ cfg.resW c) (σs0 r c)) g.doneIds := by
  have hids : ∀ l ∈ feedForwardLayers g, ∀ n ∈ l, n ∈ g.nodeIds := by
    intro l hl n hn
    obtain ⟨p, hp, hpn⟩ := fflAux_mem_targets
      (requiredForOutput g.inputIds g.outputIds g.cxKeys) g.cxKeys
      (g.cxKeys.length + 1) g.inputIds l n hl hn
    obtain ⟨c, hc, hck⟩ := List.mem_map.mp hp
    rw [← hpn, ← hck]
    exact (h2 c hc).2
  have hfold : FoldOK g g.inputIds (feedForwardLayers g) :=
    layersOK_foldOK g (feedForwardLayers g) g.inputIds
      (fflAux_ok (requiredForOutput g.inputIds g.outputIds g.cxKeys) g.cxKeys
        (g.cxKeys.length + 1) g.inputIds)
  have hbase := pixelRel_inputLayer g cfg sq h1 h3 h9 (parallelInit g)
    (fun r c => serialSetInputs g cfg sq (linspaceQ cfg.resH r)
      (linspaceQ cfg.resW c) (σs0 r c))
  exact pixelRel_layers g cfg sq h1 h2 (feedForwardLayers g) g.inputIds
    (parallelLayerStep g cfg sq (parallelInit g) g.inputIds)
    (fun r c => serialLayerStep g cfg sq (linspaceQ cfg.resH r)
      (linspaceQ cfg.resW c) (serialSetInputs g cfg sq (linspaceQ cfg.resH r)
        (linspaceQ cfg.resW c) (σs0 r c)) g.inputIds)
    hfold hids (fun _ hn => hn) hbase

theorem flatten_get_uniform {α : Type} (nOut : Nat) :
    ∀ (Ls : List (List α)) (p o : Nat) (l : List α),
      (∀ t ∈ Ls, t.length = nOut) → Ls.get? p = some l → o < nOut →
      Ls.flatten.get? (p * nOut + o) = l.get? o := by
  intro Ls
  induction Ls with
  | nil => intro p o l _ hp _; simp at hp
  | cons t rest ih =>
      intro p o l hlen hp ho
      rcases p with _ | p
      · have ht : t = l := by simpa using hp
        subst ht
        rw [List.flatten_cons, Nat.zero_mul, Nat.zero_add]
        exact List.get?_append (by
          rw [hlen t (List.mem_cons_self t rest)]; exact ho)
      · rw [List.flatten_cons]
        have hlt : t.length = nOut := hlen t (List.mem_cons_self t rest)
        have hsm : (p + 1) * nOut = p * nOut + nOut := Nat.succ_mul p nOut
        have hge : t.length ≤ (p + 1) * nOut + o := by
          rw [hlt]; omega
        rw [List.get?_append_right hge, hlt]
        have harith : (p + 1) * nOut + o - nOut = p * nOut + o := by omega
        rw [harith]
        exact ih p o l (fun u hu => hlen u (List.mem_cons_of_mem _ hu))
          (by simpa using hp) ho

theorem serialPixelsAux_get? (g : Genome) (cfg : Config) (sq : ℚ → ℚ) :
    ∀ (coords : List (ℚ × ℚ)) (σ : Int → Option ℚ) (p : Nat) (x y : ℚ),
      coords.get? p = some (x, y) →
      ∃ σ', (serialPixelsAux g cfg sq coords σ).get? p =
        some (collectOutputs g (serialFeedForward g cfg sq x y σ')) := by
  intro coords
  induction coords with
  | nil => intro σ p x y hp; simp at hp
  | cons xy rest ih =>
      intro σ p x y hp
      rcases p with _ | p
      · have hxy : xy = (x, y) := by simpa using hp
        subst hxy
        exact ⟨σ, rfl⟩
      · have hp' : rest.get? p = some (x, y) := by simpa using hp
        obtain ⟨σ', hσ'⟩ := ih (serialFeedForward g cfg sq xy.1 xy.2 σ) p x y hp'
        exact ⟨σ', hσ'⟩

theorem serialPixelsAux_lengths (g : Genome) (cfg : Config) (sq : ℚ → ℚ)
    (h10 : g.outputNodes.length = cfg.numOutputs) :
    ∀ (coords : List (ℚ × ℚ)) (σ : Int → Option ℚ),
      ∀ l ∈ serialPixelsAux g cfg sq coords σ, l.length = cfg.numOutputs := by
  intro coords
  induction coords with
  | nil => intro σ l hl; exact absurd hl (List.not_mem_nil l)
  | cons xy rest ih =>
      intro σ l hl
      have hl' : l ∈ collectOutputs g (serialFeedForward g cfg sq xy.1 xy.2 σ) ::
          serialPixelsAux g cfg sq rest
            (serialFeedForward g cfg sq xy.1 xy.2 σ) := hl
      rcases List.mem_cons.mp hl' with h | h
      · subst h
        unfold collectOutputs
        rw [List.length_map]
        exact h10
      · exact ih _ l h

theorem serialCoords_get? (cfg : Config) (i j : Nat) (hi : i < cfg.resW)
    (hj : j < cfg.resH) :
    (serialCoords cfg).get? (i * cfg.resH + j) =
      some (linspaceQ cfg.resW i, linspaceQ cfg.resH j) := by
  have hlen : ∀ t ∈ (List.range cfg.resW).map (fun ii =>
      (List.range cfg.resH).map (fun jj =>
        (linspaceQ cfg.resW ii, linspaceQ cfg.resH jj))), t.length = cfg.resH := by
    intro t ht
    obtain ⟨a, _, rfl⟩ := List.mem_map.mp ht
    rw [List.length_map, List.length_range]
  have hget : ((List.range cfg.resW).map (fun ii =>
      (List.range cfg.resH).map (fun jj =>
        (linspaceQ cfg.resW ii, linspaceQ cfg.resH jj)))).get? i =
      some ((List.range cfg.resH).map (fun jj =>
        (linspaceQ cfg.resW i, linspaceQ cfg.resH jj))) := by
    rw [List.get?_map, List.get?_range hi]
    rfl
  unfold serialCoords
  rw [flatten_get_uniform cfg.resH _ i j _ hlen hget hj]
  rw [List.get?_map, List.get?_range hj]
  rfl

/-- Had the crashing reshape been written as intended, the serial path
would agree with the parallel one exactly on square resolutions: the
pixel values the serial loop computes before the `TypeError` — flat
element `(i*res_h + j)*n_outputs + o` of the `pixels` list — equal the
parallel image at `(i, j, o)` when `res_h = res_w` (the coordinate swap
and the transpose cancel), for every well-formed genome with
normalization off. -/
theorem serialFlat_parallel_agree (g : Genome) (cfg : Config) (sq : ℚ → ℚ)
    (h1 : g.nodeIds.Nodup)
    (h2 : ∀ c ∈ g.connections, c.key.1 ∈ g.nodeIds ∧ c.key.2 ∈ g.nodeIds)
    (h3 : ∀ c ∈ g.connections, c.enabled = true → ∀ m ∈ g.nodes,
      m.type = NodeType.input → c.key.2 ≠ m.id)
    (h4 : ∀ id ∈ g.outputIds, id ∈ g.doneIds)
    (h9 : g.inputNodes.length ≤ cfg.nInputs)
    (h10 : g.outputNodes.length = cfg.numOutputs)
    (h5 : cfg.resH = cfg.resW)
    (h6 : cfg.normalizeOutputs = false)
    (i j o : Nat) (hi : i < cfg.resW) (hj : j < cfg.resH)
    (ho : o < cfg.numOutputs) :
    ((serialImageFlat g cfg sq).get?
      ((i * cfg.resH + j) * cfg.numOutputs + o)).join =
      parallelImage g cfg sq i j o := by
  obtain ⟨σ', hσ'⟩ := serialPixelsAux_get? g cfg sq (serialCoords cfg)
    (fun _ => none) (i * cfg.resH + j) (linspaceQ cfg.resW i)
    (linspaceQ cfg.resH j) (serialCoords_get? cfg i j hi hj)
  have hrel := pixelRel_final g cfg sq h1 h2 h3 h9 (fun _ _ => σ')
  have holen : o < g.outputNodes.length := by rw [h10]; exact ho
  obtain ⟨nd, houtget⟩ : ∃ nd, g.outputNodes.get? o = some nd := by
    rcases hq : g.outputNodes.get? o with _ | nd
    · rw [List.get?_eq_none] at hq
      omega
    · exact ⟨nd, rfl⟩
  have hdone : nd.id ∈ g.doneIds :=
    h4 nd.id (List.mem_map_of_mem _ (List.get?_mem houtget))
  obtain ⟨gr, hgrp, hfam⟩ := hrel nd.id hdone
  have hfamij := hfam i j
  dsimp only at hfamij
  have hlin : ∀ a, linspaceQ cfg.resH a = linspaceQ cfg.resW a := by
    intro a
    rw [h5]
  rw [hlin i] at hfamij
  rw [← hlin j] at hfamij
  have hserial : ((serialImageFlat g cfg sq).get?
      ((i * cfg.resH + j) * cfg.numOutputs + o)).join = some (gr i j) := by
    unfold serialImageFlat
    rw [flatten_get_uniform cfg.numOutputs
      (serialPixelsAux g cfg sq (serialCoords cfg) (fun _ => none))
      (i * cfg.resH + j) o
      (collectOutputs g (serialFeedForward g cfg sq (linspaceQ cfg.resW i)
        (linspaceQ cfg.resH j) σ'))
      (serialPixelsAux_lengths g cfg sq h10 (serialCoords cfg) (fun _ => none))
      hσ' ho]
    unfold collectOutputs
    rw [List.get?_map, houtget]
    exact hfamij
  have hparallel : parallelImage g cfg sq i j o = some (gr i j) := by
    unfold parallelImage
    rw [h6, if_neg Bool.false_ne_true]
    unfold parallelImageRaw
    rw [houtget]
    show (parallelFinalState g cfg sq nd.id).map (fun z => z i j) = some (gr i j)
    rw [hgrp]
    rfl
  rw [hserial, hparallel]

end CppnNeat
